import Mathlib

/-!
Verification of the CHAOS highlight pipeline: a shallow embedding of
the kill-feed dedup state machine and OCR-line parser from
`chaos_lib/analyzers.py`, the event correlator (window scoring and
interval merging) from `chaos_lib/correlator.py`, and the ROI scaling
helper `scale_roi_for_resolution`, together with proofs of the
specified properties.

Modelling conventions:
- Python floats are modelled as rationals (`ℚ`); the verified claims
  concern ordering, clamping and exact arithmetic, not rounding.
- External computer-vision / OCR capabilities (EasyOCR, the contour
  extractor, the icon classifiers) are inputs of the model: each
  per-frame candidate carries the OCR strings and icon booleans those
  external calls returned for its crop.
- Python `dict` (insertion ordered, unique keys) is modelled as an
  association list appended on insert; Python `set` is modelled by a
  duplicate-free list queried only through membership, except where a
  set is converted to a list (`list(tags)`), whose iteration order is
  hash-seed dependent in CPython and is therefore modelled by an
  explicit order oracle constrained to produce a permutation of the
  set's elements.
-/

/-! ### Python string primitives used by the parser -/

/-- Python `str.split()` helper: accumulates the current token (reversed)
and splits on any whitespace run, discarding empty tokens. -/
def pySplitAux : List Char → List Char → List String
  | [], acc => if acc.isEmpty then [] else [String.mk acc.reverse]
  | c :: rest, acc =>
    if c.isWhitespace then
      (if acc.isEmpty then [] else [String.mk acc.reverse]) ++ pySplitAux rest []
    else
      pySplitAux rest (c :: acc)

/-- Python `str.split()` with no argument: whitespace-delimited tokens,
no empty tokens. -/
def pySplit (s : String) : List String :=
  pySplitAux s.toList []

/-- Python `pat in s` substring test, over character lists. -/
def containsSub (pat : List Char) : List Char → Bool
  | [] => pat.isEmpty
  | c :: rest => pat.isPrefixOf (c :: rest) || containsSub pat rest

/-- The prefix of `s` before the first occurrence of `pat`
(Python `s.split(pat)[0]` when `pat` occurs in `s`). -/
def takeBefore (pat : List Char) : List Char → List Char
  | [] => []
  | c :: rest => if pat.isPrefixOf (c :: rest) then [] else c :: takeBefore pat rest

/-- Python `str.strip()`: remove leading and trailing whitespace. -/
def pyStrip (s : List Char) : List Char :=
  ((s.dropWhile Char.isWhitespace).reverse.dropWhile Char.isWhitespace).reverse

/-- Python `pat in s` on `String`s. -/
def strContainsStr (pat s : String) : Bool :=
  containsSub pat.toList s.toList

/-! ### `_parse_and_identify_kill` (chaos_lib/analyzers.py) -/

/-- Result record of `_parse_and_identify_kill`. -/
structure ParsedKill where
  killer : String
  assister : Option String
  victim : String
  is_player_kill : Bool
  raw_text : String
deriving DecidableEq, Repr

/-- Embedding of `_parse_and_identify_kill`: victim is the last
whitespace token (`None` when fewer than two tokens), the assister is
the token right after the first standalone "+" token when present, and
the killer is the stripped text before " + ", else before " ► ", else
the first token.  `is_player_kill` is always `true` in the source. -/
def parse_and_identify_kill (text : String) : Option ParsedKill :=
  let parts := pySplit text
  if parts.length < 2 then none
  else
    let victim := parts.getLastD ""
    let assister : Option String :=
      match parts.findIdx? (· == "+") with
      | none => none
      | some plus_index =>
        if plus_index + 1 < parts.length then parts[plus_index + 1]? else none
    let detected_player :=
      if containsSub " + ".toList text.toList then
        String.mk (pyStrip (takeBefore " + ".toList text.toList))
      else if containsSub " ► ".toList text.toList then
        String.mk (pyStrip (takeBefore " ► ".toList text.toList))
      else parts.headD ""
    some { killer := detected_player, assister := assister, victim := victim,
           is_player_kill := true, raw_text := text }

example : pySplit "Alice ► Bob" = ["Alice", "►", "Bob"] := by decide
example : parse_and_identify_kill "Alice ► Bob" =
    some { killer := "Alice", assister := none, victim := "Bob",
           is_player_kill := true, raw_text := "Alice ► Bob" } := by decide
example : parse_and_identify_kill "Alice + Carl Bob" =
    some { killer := "Alice", assister := some "Carl", victim := "Bob",
           is_player_kill := true, raw_text := "Alice + Carl Bob" } := by decide
example : parse_and_identify_kill "Bob" = none := by decide

/-! ### `analyze_killfeed` (chaos_lib/analyzers.py): the kill dedup state machine

The per-frame computer-vision front end (HSV threshold, contour
extraction, EasyOCR, icon classifiers) is external: a `Candidate` is
one contour that reached the shape filter, carrying its bounding-box
width/height and the external capabilities' outputs for its crop.  A
`Frame` is one sampled frame (its timestamp and its candidates); a
read failure of the video handle is a `none` entry in the read list. -/

/-- Configuration keys of `analyze_killfeed` that the state machine uses. -/
structure AnalyzerConfig where
  min_h : ℕ
  max_h : ℕ
  min_aspect : ℚ
  memory_duration : ℚ

/-- One contour of the red mask: bounding box extent plus the external
OCR / icon-classifier outputs for the corresponding crop. -/
structure Candidate where
  w : ℕ
  h : ℕ
  ocr_result : List String
  headshot_icon : Bool
  smoke_icon : Bool

/-- One successfully decoded sampled frame. -/
structure Frame where
  timestamp : ℚ
  candidates : List Candidate

/-- The shape filter: keep boxes with `min_h <= h <= max_h` and
aspect `w / h` (0 when `h = 0`) at least the configured minimum. -/
def shapeOk (cfg : AnalyzerConfig) (c : Candidate) : Bool :=
  let aspect : ℚ := if 0 < c.h then (c.w : ℚ) / (c.h : ℚ) else 0
  decide (cfg.min_h ≤ c.h) && decide (c.h ≤ cfg.max_h) && decide (cfg.min_aspect ≤ aspect)

/-- The candidate pipeline of the frame loop: shape filter, empty-OCR
check, `" ".join`, parse, and the falsy-victim check. Returns the
parsed kill record for candidates that reach the state logic. -/
def candidateParse (cfg : AnalyzerConfig) (c : Candidate) : Option ParsedKill :=
  if !(shapeOk cfg c) then none
  else if c.ocr_result.isEmpty then none
  else
    match parse_and_identify_kill (String.intercalate " " c.ocr_result) with
    | none => none
    | some p => if p.victim = "" then none else some p

/-- The victims the state logic sees in a list of candidates, in
candidate order. -/
def victimsOf (cfg : AnalyzerConfig) (cs : List Candidate) : List String :=
  cs.filterMap (fun c => (candidateParse cfg c).map (·.victim))

/-- The victims detected in one frame (`current_frame_victims`). -/
def frameVictims (cfg : AnalyzerConfig) (f : Frame) : List String :=
  victimsOf cfg f.candidates

/-- One emitted kill event (the `details` dict flattened). -/
structure KillEvent where
  source_video : String
  timestamp_seconds : ℚ
  raw_text : String
  detected_player : String
  assister : Option String
  victim : String
  isHeadshot : Bool
  throughSmoke : Bool
deriving DecidableEq, Repr

/-- The event appended for a newly seen victim. -/
def mkKillEvent (video : String) (ts : ℚ) (p : ParsedKill) (c : Candidate) : KillEvent :=
  { source_video := video, timestamp_seconds := ts, raw_text := p.raw_text,
    detected_player := p.killer, assister := p.assister, victim := p.victim,
    isHeadshot := c.headshot_icon, throughSmoke := c.smoke_icon }

/-- State of the frame loop: the `active_kills` ledger (victim name to
`first_seen`, insertion ordered, unique keys), the accumulated kill
events, and the current frame's `current_frame_victims` set. -/
structure ScanState where
  active_kills : List (String × ℚ)
  kill_events : List KillEvent
  seen : List String

/-- Keys of the ledger. -/
def ledgerKeys (l : List (String × ℚ)) : List String := l.map (·.1)

/-- The body of the candidate loop: record the victim as seen this
frame; when the victim is not in the ledger, add it with
`first_seen := ts` and (the `is_player_kill` guard, always true) emit
one kill event. -/
def stepCandidate (video : String) (cfg : AnalyzerConfig) (ts : ℚ)
    (s : ScanState) (c : Candidate) : ScanState :=
  match candidateParse cfg c with
  | none => s
  | some p =>
    let seen' := p.victim :: s.seen
    if p.victim ∈ ledgerKeys s.active_kills then { s with seen := seen' }
    else
      let ledger' := s.active_kills ++ [(p.victim, ts)]
      if p.is_player_kill then
        { active_kills := ledger', seen := seen',
          kill_events := s.kill_events ++ [mkKillEvent video ts p c] }
      else
        { active_kills := ledger', seen := seen', kill_events := s.kill_events }

/-- The state cleanup sweep: drop ledger entries for victims not seen
this frame whose first sighting is more than `memory_duration` old. -/
def sweepLedger (memory_duration ts : ℚ) (seen : List String)
    (ledger : List (String × ℚ)) : List (String × ℚ) :=
  ledger.filter (fun e => decide (e.1 ∈ seen) || !decide (memory_duration < ts - e.2))

/-- One iteration of the frame loop on a decoded frame. -/
def processFrame (video : String) (cfg : AnalyzerConfig)
    (st : ScanState) (f : Frame) : ScanState :=
  let scan := f.candidates.foldl (stepCandidate video cfg f.timestamp)
    { st with seen := [] }
  { scan with
    active_kills := sweepLedger cfg.memory_duration f.timestamp scan.seen scan.active_kills }

/-- The frame loop over successfully decoded frames. -/
def runFrames (video : String) (cfg : AnalyzerConfig)
    (st : ScanState) (frames : List Frame) : ScanState :=
  frames.foldl (processFrame video cfg) st

/-- The frame loop over read results: a failed read (`ret` false)
breaks out of the loop. -/
def readFrames (video : String) (cfg : AnalyzerConfig)
    (st : ScanState) : List (Option Frame) → ScanState
  | [] => st
  | none :: _ => st
  | some f :: rest => readFrames video cfg (processFrame video cfg st f) rest

/-- The state at the start of per-video analysis: empty ledger, no events. -/
def initScan : ScanState := { active_kills := [], kill_events := [], seen := [] }

/-- Embedding of `analyze_killfeed`: empty result when the capture
cannot be opened, otherwise the events accumulated by the frame loop
starting from an empty ledger. -/
def analyze_killfeed (video : String) (cfg : AnalyzerConfig)
    (opened : Bool) (reads : List (Option Frame)) : List KillEvent :=
  if !opened then []
  else (readFrames video cfg initScan reads).kill_events

/-- Number of emitted kill events naming a given victim. -/
def countVictim (v : String) (evs : List KillEvent) : ℕ :=
  (evs.filter (fun e => e.victim == v)).length

/-! ### `run_correlation` (chaos_lib/correlator.py)

Events are the JSON records of `all_events.json`; the `details` dict is
carried in the stringified form the correlator actually inspects
(`details_str = str(details)`).  CPython iterates a `set` of strings in
a hash-seed dependent order, so each place the code converts a set to a
list (`list(tags)`) is modelled by an order oracle `SetOrder`; a valid
oracle returns some permutation of the set's elements. -/

/-- Event types of the pipeline. -/
inductive EType where
  | kill
  | chat
  | voice
  | audio_spike
deriving DecidableEq, Repr

/-- One event record as consumed by the correlator. -/
structure Event where
  source_video : String
  timestamp_seconds : ℚ
  etype : EType
  details_str : String
deriving DecidableEq, Repr

/-- The `scoring_weights` table. -/
structure ScoringWeights where
  kill : ℚ
  multi_kill_bonus : ℚ
  enemy_rage_chat : ℚ
  team_hype_voice : ℚ
  audio_spike : ℚ

/-- Correlator configuration. -/
structure CorrelatorConfig where
  weights : ScoringWeights
  pre_buffer : ℚ
  post_buffer : ℚ

/-- One clip record (correlator output). -/
structure Clip where
  source_video : String
  clip_start : ℚ
  clip_end : ℚ
  score : ℚ
  tags : List String
  events_in_window : List Event
deriving DecidableEq, Repr

/-- The `(source_video, timestamp_seconds)` sort order on events. -/
def eventLE (a b : Event) : Prop :=
  a.source_video < b.source_video ∨
    (a.source_video = b.source_video ∧ a.timestamp_seconds ≤ b.timestamp_seconds)

instance : DecidableRel eventLE := fun a b => by
  unfold eventLE; infer_instance

instance : IsTotal Event eventLE := by
  constructor
  intro a b
  rcases lt_trichotomy a.source_video b.source_video with h | h | h
  · exact Or.inl (Or.inl h)
  · rcases le_total a.timestamp_seconds b.timestamp_seconds with ht | ht
    · exact Or.inl (Or.inr ⟨h, ht⟩)
    · exact Or.inr (Or.inr ⟨h.symm, ht⟩)
  · exact Or.inr (Or.inl h)

instance : IsTrans Event eventLE := by
  constructor
  intro a b c hab hbc
  rcases hab with h1 | ⟨h1, t1⟩
  · rcases hbc with h2 | ⟨h2, _⟩
    · exact Or.inl (h1.trans h2)
    · exact Or.inl (h2 ▸ h1)
  · rcases hbc with h2 | ⟨h2, t2⟩
    · exact Or.inl (h1 ▸ h2)
    · exact Or.inr ⟨h1.trans h2, t1.trans t2⟩

/-- The `(source_video, clip_start)` sort order on clips. -/
def clipLE (a b : Clip) : Prop :=
  a.source_video < b.source_video ∨
    (a.source_video = b.source_video ∧ a.clip_start ≤ b.clip_start)

instance : DecidableRel clipLE := fun a b => by
  unfold clipLE; infer_instance

instance : IsTotal Clip clipLE := by
  constructor
  intro a b
  rcases lt_trichotomy a.source_video b.source_video with h | h | h
  · exact Or.inl (Or.inl h)
  · rcases le_total a.clip_start b.clip_start with ht | ht
    · exact Or.inl (Or.inr ⟨h, ht⟩)
    · exact Or.inr (Or.inr ⟨h.symm, ht⟩)
  · exact Or.inr (Or.inl h)

instance : IsTrans Clip clipLE := by
  constructor
  intro a b c hab hbc
  rcases hab with h1 | ⟨h1, t1⟩
  · rcases hbc with h2 | ⟨h2, _⟩
    · exact Or.inl (h1.trans h2)
    · exact Or.inl (h2 ▸ h1)
  · rcases hbc with h2 | ⟨h2, t2⟩
    · exact Or.inl (h1 ▸ h2)
    · exact Or.inr ⟨h1.trans h2, t1.trans t2⟩

/-- The descending-score order used for the final ranking sort. -/
def scoreGE (a b : Clip) : Prop := b.score ≤ a.score

instance : DecidableRel scoreGE := fun a b => by
  unfold scoreGE; infer_instance

instance : IsTotal Clip scoreGE :=
  ⟨fun a b => (le_total b.score a.score).imp id id⟩

instance : IsTrans Clip scoreGE :=
  ⟨fun _ _ _ hab hbc => le_trans hbc hab⟩

/-- An order oracle for CPython's set-to-list conversion. -/
def SetOrder : Type := List String → List String

/-- A valid oracle lists exactly the elements of the set (here
represented by a list, whose duplicate-free form is the set). -/
def ValidSetOrder (σ : SetOrder) : Prop :=
  ∀ l : List String, List.Perm (σ l) l.dedup

/-- The window filter: events of the trigger's video whose timestamp
lies in `[window_start, window_end]`. -/
def windowOf (df : List Event) (sv : String) (window_start window_end : ℚ) : List Event :=
  df.filter (fun e =>
    e.source_video == sv &&
    decide (window_start ≤ e.timestamp_seconds) &&
    decide (e.timestamp_seconds ≤ window_end))

/-- Window scoring: the score accumulator and the tag set (as the
insertion-ordered list of added tags) for one window. -/
def scoreAndTags (w : ScoringWeights) (window_df : List Event) : ℚ × List String :=
  let num_kills := (window_df.filter (fun e => e.etype == EType.kill)).length
  let score1 : ℚ := (num_kills : ℚ) * w.kill
  let hasMulti := decide (1 < num_kills)
  let score2 := if hasMulti then score1 + w.multi_kill_bonus else score1
  let tags2 : List String := if hasMulti then ["multi-kill"] else []
  let hasRage := (window_df.filter (fun e => e.etype == EType.chat)).any
    (fun e => strContainsStr "rage" e.details_str)
  let score3 := if hasRage then score2 + w.enemy_rage_chat else score2
  let tags3 := if hasRage then tags2 ++ ["enemy_rage"] else tags2
  let hasHype := (window_df.filter (fun e => e.etype == EType.voice)).any
    (fun e => strContainsStr "hype" e.details_str)
  let score4 := if hasHype then score3 + w.team_hype_voice else score3
  let tags4 := if hasHype then tags3 ++ ["team_hype"] else tags3
  let hasSpike := !(window_df.filter (fun e => e.etype == EType.audio_spike)).isEmpty
  let score5 := if hasSpike then score4 + w.audio_spike else score4
  let tags5 := if hasSpike then tags4 ++ ["loud_reaction"] else tags4
  (score5, tags5)

/-- One loop iteration of the candidate-generation pass: the potential
clip for one kill trigger (`none` when its window is empty and the
iteration continues without appending). -/
def mkCandidate (cfg : CorrelatorConfig) (σ : SetOrder) (df : List Event)
    (trigger : Event) : Option Clip :=
  let window_start := trigger.timestamp_seconds - cfg.pre_buffer
  let window_end := trigger.timestamp_seconds + cfg.post_buffer
  let window_df := windowOf df trigger.source_video window_start window_end
  if window_df.isEmpty then none
  else
    let st := scoreAndTags cfg.weights window_df
    some { source_video := trigger.source_video, clip_start := window_start,
           clip_end := window_end, score := st.1, tags := σ st.2,
           events_in_window := window_df }

/-- `list(set(a).union(set(b)))` for tag lists. -/
def mergeTags (σ : SetOrder) (a b : List String) : List String :=
  σ ((a ++ b).dedup)

/-- Absorbing an overlapping candidate into the running clip: extend
the end, sum the scores, union the tag sets. -/
def absorbClip (σ : SetOrder) (running c : Clip) : Clip :=
  { running with
    clip_end := max running.clip_end c.clip_end,
    score := running.score + c.score,
    tags := mergeTags σ running.tags c.tags }

/-- The merge sweep over the sorted candidates, tracking the running
clip (`merged_clips[-1]` in the source). -/
def mergeLoop (σ : SetOrder) (running : Clip) : List Clip → List Clip
  | [] => [running]
  | c :: rest =>
    if running.source_video == c.source_video && decide (c.clip_start < running.clip_end) then
      mergeLoop σ (absorbClip σ running c) rest
    else
      running :: mergeLoop σ c rest

/-- The merge pass: sort candidates by `(source_video, clip_start)` and
sweep. -/
def mergePass (σ : SetOrder) (cands : List Clip) : List Clip :=
  match List.insertionSort clipLE cands with
  | [] => []
  | m0 :: ms => mergeLoop σ m0 ms

/-- Embedding of `run_correlation` as a function from the loaded event
list to the written highlight list: `none` models the early returns
that leave no `ordered_highlights.json` behind (empty input, or no
potential clips), `some clips` the file written on the normal path. -/
def run_correlation (cfg : CorrelatorConfig) (σ : SetOrder)
    (all_events : List Event) : Option (List Clip) :=
  if all_events.isEmpty then none
  else
    let df := List.insertionSort eventLE all_events
    let trigger_events := df.filter (fun e => e.etype == EType.kill)
    let potential_clips := trigger_events.filterMap (mkCandidate cfg σ df)
    if potential_clips.isEmpty then none
    else some (List.insertionSort scoreGE (mergePass σ potential_clips))

/-! ### `scale_roi_for_resolution` (chaos_lib/analyzers.py) -/

/-- Python `int()` on a float: truncation toward zero. -/
def pyTrunc (q : ℚ) : ℤ :=
  if 0 ≤ q then q.floor else -((-q).floor)

/-- Clamp of a scaled coordinate into `[0, bound]`. -/
def clampCoord (x bound : ℤ) : ℤ := max 0 (min x bound)

/-- Embedding of `scale_roi_for_resolution`: scale the reference-space
ROI by the resolution ratios, truncate, clamp into the frame, and force
a positive extent (10 px, capped at the frame edge) when the clamped
box is degenerate. -/
def scale_roi_for_resolution (roi : ℤ × ℤ × ℤ × ℤ) (video_width video_height : ℤ)
    (reference_width : ℤ := 2560) (reference_height : ℤ := 1440) : ℤ × ℤ × ℤ × ℤ :=
  let width_scale : ℚ := (video_width : ℚ) / (reference_width : ℚ)
  let height_scale : ℚ := (video_height : ℚ) / (reference_height : ℚ)
  let scaled_x1 := clampCoord (pyTrunc ((roi.1 : ℚ) * width_scale)) video_width
  let scaled_y1 := clampCoord (pyTrunc ((roi.2.1 : ℚ) * height_scale)) video_height
  let scaled_x2 := clampCoord (pyTrunc ((roi.2.2.1 : ℚ) * width_scale)) video_width
  let scaled_y2 := clampCoord (pyTrunc ((roi.2.2.2 : ℚ) * height_scale)) video_height
  let scaled_x2 := if scaled_x2 ≤ scaled_x1 then min (scaled_x1 + 10) video_width else scaled_x2
  let scaled_y2 := if scaled_y2 ≤ scaled_y1 then min (scaled_y1 + 10) video_height else scaled_y2
  (scaled_x1, scaled_y1, scaled_x2, scaled_y2)

/-- The safety contract of the scaled ROI within a `width × height` frame. -/
def roiOK (video_width video_height : ℤ) (r : ℤ × ℤ × ℤ × ℤ) : Prop :=
  0 ≤ r.1 ∧ r.1 ≤ r.2.2.1 ∧ r.2.2.1 ≤ video_width ∧
  0 ≤ r.2.1 ∧ r.2.1 ≤ r.2.2.2 ∧ r.2.2.2 ≤ video_height ∧
  (r.1 < video_width → r.1 < r.2.2.1) ∧
  (r.2.1 < video_height → r.2.1 < r.2.2.2)

/-! ## Theorems -/

lemma clampCoord_nonneg (x b : ℤ) : 0 ≤ clampCoord x b := le_max_left 0 _

lemma clampCoord_le (x b : ℤ) (hb : 0 ≤ b) : clampCoord x b ≤ b :=
  max_le hb (min_le_right x b)

lemma fixup_lower (a b c : ℤ) (ha : a ≤ b) :
    a ≤ (if c ≤ a then min (a + 10) b else c) := by
  split
  · exact le_min (by omega) ha
  · omega

lemma fixup_upper (a b c : ℤ) (hc : c ≤ b) :
    (if c ≤ a then min (a + 10) b else c) ≤ b := by
  split
  · exact min_le_right _ _
  · exact hc

lemma fixup_pos (a b c : ℤ) (hab : a < b) :
    a < (if c ≤ a then min (a + 10) b else c) := by
  split
  · exact lt_min (by omega) hab
  · omega

/-- C10: for every input ROI quadruple and positive video dimensions,
the scaled ROI is clamped into the frame (`0 ≤ x1 ≤ x2 ≤ width`,
`0 ≤ y1 ≤ y2 ≤ height`) and has a strictly positive extent whenever the
clamped origin coordinate is strictly inside the frame, so the crop
`frame[y1:y2, x1:x2]` never indexes outside the frame. -/
theorem scale_roi_safe (roi : ℤ × ℤ × ℤ × ℤ) (video_width video_height : ℤ)
    (reference_width reference_height : ℤ)
    (hw : 0 < video_width) (hh : 0 < video_height) :
    roiOK video_width video_height
      (scale_roi_for_resolution roi video_width video_height
        reference_width reference_height) := by
  unfold scale_roi_for_resolution roiOK
  simp only
  refine ⟨clampCoord_nonneg _ _, ?_, ?_, clampCoord_nonneg _ _, ?_, ?_, ?_, ?_⟩
  · exact fixup_lower _ _ _ (clampCoord_le _ _ hw.le)
  · exact fixup_upper _ _ _ (clampCoord_le _ _ hw.le)
  · exact fixup_lower _ _ _ (clampCoord_le _ _ hh.le)
  · exact fixup_upper _ _ _ (clampCoord_le _ _ hh.le)
  · intro h; exact fixup_pos _ _ _ h
  · intro h; exact fixup_pos _ _ _ h

/-- Witness for C10 at a concrete ROI and resolution. -/
theorem scale_roi_safe_witness :
    (0 : ℤ) < 1920 ∧ (0 : ℤ) < 1080 ∧
    roiOK 1920 1080 (scale_roi_for_resolution (1800, 40, 2520, 400) 1920 1080 2560 1440) :=
  ⟨by decide, by decide,
    scale_roi_safe (1800, 40, 2520, 400) 1920 1080 2560 1440 (by decide) (by decide)⟩

/-! Shared concrete fixtures for counterexamples and witnesses. -/

/-- A concrete correlator configuration (the repository's defaults). -/
def cfg0 : CorrelatorConfig :=
  { weights := { kill := 10, multi_kill_bonus := 15, enemy_rage_chat := 25,
                 team_hype_voice := 20, audio_spike := 5 },
    pre_buffer := 7, post_buffer := 8 }

/-- A concrete valid set-iteration order: dedup (first-insertion) order. -/
def insertionOrder : SetOrder := fun l => l.dedup

/-- A concrete chat event with no kill anywhere near it. -/
def chatOnly : Event :=
  { source_video := "game.mp4", timestamp_seconds := 3, etype := EType.chat,
    details_str := "text hello" }

/-- C5 counterexample: on an empty input event list the correlator does
not produce an empty output clip list; it returns early without
producing any output at all (`none`), and likewise for an input with no
kill events. -/
theorem run_correlation_empty_counterexample :
    ¬ (run_correlation cfg0 insertionOrder [] = some []) ∧
    run_correlation cfg0 insertionOrder [] = none ∧
    run_correlation cfg0 insertionOrder [chatOnly] = none := by
  refine ⟨?_, rfl, by decide⟩
  intro h
  simp [run_correlation] at h

/-- C5 (amended): an empty input event list, or an input containing no
kill events, makes the correlator return early without writing any
highlight output (modelled as `none`) and without raising an error (the
embedding is a total function). -/
theorem run_correlation_no_kills_no_output (cfg : CorrelatorConfig) (σ : SetOrder)
    (evs : List Event) (h : evs = [] ∨ ∀ e ∈ evs, e.etype ≠ EType.kill) :
    run_correlation cfg σ evs = none := by
  rcases h with h | h
  · subst h; rfl
  · unfold run_correlation
    split
    · rfl
    · have htr : (List.insertionSort eventLE evs).filter (fun e => e.etype == EType.kill) = [] := by
        rw [List.filter_eq_nil_iff]
        intro e he
        have : e ∈ evs := (List.mem_insertionSort eventLE).1 he
        simpa using h e this
      simp only [htr, List.filterMap_nil, List.isEmpty_nil, if_true]

/-- Witness for C5's amended theorem on a concrete kill-free input. -/
theorem run_correlation_no_kills_no_output_witness :
    (([chatOnly] : List Event) = [] ∨ ∀ e ∈ [chatOnly], e.etype ≠ EType.kill) ∧
    run_correlation cfg0 insertionOrder [chatOnly] = none :=
  ⟨Or.inr (by decide),
    run_correlation_no_kills_no_output cfg0 insertionOrder [chatOnly] (Or.inr (by decide))⟩

/-- C7: for every OCR string, the kill parser returns nothing when there
are fewer than two whitespace tokens; otherwise the victim is the last
token, the assister is the token right after the first standalone "+"
token when such a token exists and is followed by one (else null), and
the killer is the (stripped) text before " + " when present, else the
text before " ► " when present, else the first token. -/
theorem parse_kill_contract (text : String) :
    ((pySplit text).length < 2 → parse_and_identify_kill text = none) ∧
    (2 ≤ (pySplit text).length →
      ∃ r, parse_and_identify_kill text = some r ∧
        r.victim = (pySplit text).getLastD "" ∧
        (∀ i, (pySplit text).findIdx? (· == "+") = some i →
          r.assister = if i + 1 < (pySplit text).length then (pySplit text)[i + 1]? else none) ∧
        ((pySplit text).findIdx? (· == "+") = none → r.assister = none) ∧
        (containsSub " + ".toList text.toList = true →
          r.killer = String.mk (pyStrip (takeBefore " + ".toList text.toList))) ∧
        (containsSub " + ".toList text.toList = false →
          containsSub " ► ".toList text.toList = true →
          r.killer = String.mk (pyStrip (takeBefore " ► ".toList text.toList))) ∧
        (containsSub " + ".toList text.toList = false →
          containsSub " ► ".toList text.toList = false →
          r.killer = (pySplit text).headD "") ∧
        r.raw_text = text ∧ r.is_player_kill = true) := by
  constructor
  · intro h
    unfold parse_and_identify_kill
    rw [if_pos h]
  · intro h
    have hlt : ¬ (pySplit text).length < 2 := not_lt.mpr h
    unfold parse_and_identify_kill
    rw [if_neg hlt]
    refine ⟨_, rfl, rfl, ?_, ?_, ?_, ?_, ?_, rfl, rfl⟩
    · intro i hi
      simp only [hi]
    · intro hi
      simp only [hi]
    · intro hc
      simp only [hc, if_true]
    · intro hc hr
      simp only [hc, hr, Bool.false_eq_true, if_false, if_true]
    · intro hc hr
      simp only [hc, hr, Bool.false_eq_true, if_false]

/-- Witness for C7 on concrete OCR strings. -/
theorem parse_kill_contract_witness :
    ((pySplit "Bob").length < 2 ∧ parse_and_identify_kill "Bob" = none) ∧
    (2 ≤ (pySplit "Alice ► Bob").length ∧
      ∃ r, parse_and_identify_kill "Alice ► Bob" = some r ∧
        r.victim = (pySplit "Alice ► Bob").getLastD "" ∧
        (∀ i, (pySplit "Alice ► Bob").findIdx? (· == "+") = some i →
          r.assister = if i + 1 < (pySplit "Alice ► Bob").length
            then (pySplit "Alice ► Bob")[i + 1]? else none) ∧
        ((pySplit "Alice ► Bob").findIdx? (· == "+") = none → r.assister = none) ∧
        (containsSub " + ".toList "Alice ► Bob".toList = true →
          r.killer = String.mk (pyStrip (takeBefore " + ".toList "Alice ► Bob".toList))) ∧
        (containsSub " + ".toList "Alice ► Bob".toList = false →
          containsSub " ► ".toList "Alice ► Bob".toList = true →
          r.killer = String.mk (pyStrip (takeBefore " ► ".toList "Alice ► Bob".toList))) ∧
        (containsSub " + ".toList "Alice ► Bob".toList = false →
          containsSub " ► ".toList "Alice ► Bob".toList = false →
          r.killer = (pySplit "Alice ► Bob").headD "") ∧
        r.raw_text = "Alice ► Bob" ∧ r.is_player_kill = true) :=
  ⟨⟨by decide, (parse_kill_contract "Bob").1 (by decide)⟩,
   ⟨by decide, (parse_kill_contract "Alice ► Bob").2 (by decide)⟩⟩

/-! ### Lemmas about the dedup state machine's candidate loop -/

/-- Events with a given victim name. -/
def filterVictim (v : String) (evs : List KillEvent) : List KillEvent :=
  evs.filter (fun e => e.victim == v)

lemma countVictim_eq_length (v : String) (evs : List KillEvent) :
    countVictim v evs = (filterVictim v evs).length := rfl

lemma ledgerKeys_mem (l : List (String × ℚ)) (x : String) :
    x ∈ ledgerKeys l ↔ ∃ t, (x, t) ∈ l := by
  unfold ledgerKeys
  rw [List.mem_map]
  constructor
  · rintro ⟨⟨a, t⟩, hm, rfl⟩
    exact ⟨t, hm⟩
  · rintro ⟨t, hm⟩
    exact ⟨(x, t), hm, rfl⟩

lemma parse_is_player (text : String) (p : ParsedKill)
    (h : parse_and_identify_kill text = some p) : p.is_player_kill = true := by
  simp only [parse_and_identify_kill] at h
  split at h
  · exact Option.noConfusion h
  · cases h
    rfl

lemma candidateParse_is_player (cfg : AnalyzerConfig) (c : Candidate) (p : ParsedKill)
    (h : candidateParse cfg c = some p) : p.is_player_kill = true := by
  unfold candidateParse at h
  split at h
  · exact Option.noConfusion h
  · split at h
    · exact Option.noConfusion h
    · split at h
      · exact Option.noConfusion h
      · split at h
        · exact Option.noConfusion h
        · cases h
          exact parse_is_player _ _ (by assumption)

lemma victimsOf_cons_none (cfg : AnalyzerConfig) (c : Candidate) (cs : List Candidate)
    (h : candidateParse cfg c = none) :
    victimsOf cfg (c :: cs) = victimsOf cfg cs := by
  simp [victimsOf, List.filterMap_cons, h]

lemma victimsOf_cons_some (cfg : AnalyzerConfig) (c : Candidate) (cs : List Candidate)
    (p : ParsedKill) (h : candidateParse cfg c = some p) :
    victimsOf cfg (c :: cs) = p.victim :: victimsOf cfg cs := by
  simp [victimsOf, List.filterMap_cons, h]

lemma stepCandidate_none (video : String) (cfg : AnalyzerConfig) (ts : ℚ)
    (s : ScanState) (c : Candidate) (h : candidateParse cfg c = none) :
    stepCandidate video cfg ts s c = s := by
  simp [stepCandidate, h]

lemma stepCandidate_inLedger (video : String) (cfg : AnalyzerConfig) (ts : ℚ)
    (s : ScanState) (c : Candidate) (p : ParsedKill)
    (h : candidateParse cfg c = some p)
    (hk : p.victim ∈ ledgerKeys s.active_kills) :
    stepCandidate video cfg ts s c = { s with seen := p.victim :: s.seen } := by
  simp [stepCandidate, h, hk]

lemma stepCandidate_new (video : String) (cfg : AnalyzerConfig) (ts : ℚ)
    (s : ScanState) (c : Candidate) (p : ParsedKill)
    (h : candidateParse cfg c = some p)
    (hk : p.victim ∉ ledgerKeys s.active_kills) :
    stepCandidate video cfg ts s c =
      { active_kills := s.active_kills ++ [(p.victim, ts)],
        kill_events := s.kill_events ++ [mkKillEvent video ts p c],
        seen := p.victim :: s.seen } := by
  simp [stepCandidate, h, hk, candidateParse_is_player cfg c p h]

lemma foldl_seen_mem (video : String) (cfg : AnalyzerConfig) (ts : ℚ) :
    ∀ (cs : List Candidate) (s : ScanState) (x : String),
      (x ∈ (cs.foldl (stepCandidate video cfg ts) s).seen ↔
        x ∈ s.seen ∨ x ∈ victimsOf cfg cs) := by
  intro cs
  induction cs with
  | nil => intro s x; simp [victimsOf]
  | cons c cs ih =>
    intro s x
    rw [List.foldl_cons]
    cases hp : candidateParse cfg c with
    | none =>
      rw [stepCandidate_none video cfg ts s c hp, victimsOf_cons_none cfg c cs hp]
      exact ih s x
    | some p =>
      rw [victimsOf_cons_some cfg c cs p hp]
      by_cases hk : p.victim ∈ ledgerKeys s.active_kills
      · rw [stepCandidate_inLedger video cfg ts s c p hp hk, ih]
        simp only [List.mem_cons]
        tauto
      · rw [stepCandidate_new video cfg ts s c p hp hk, ih]
        simp only [List.mem_cons]
        tauto

lemma foldl_ledger_decomp (video : String) (cfg : AnalyzerConfig) (ts : ℚ) :
    ∀ (cs : List Candidate) (s : ScanState),
      ∃ ex, (cs.foldl (stepCandidate video cfg ts) s).active_kills = s.active_kills ++ ex ∧
        ∀ q ∈ ex, q.2 = ts ∧ q.1 ∈ victimsOf cfg cs := by
  intro cs
  induction cs with
  | nil => intro s; exact ⟨[], by simp, by simp⟩
  | cons c cs ih =>
    intro s
    rw [List.foldl_cons]
    cases hp : candidateParse cfg c with
    | none =>
      rw [stepCandidate_none video cfg ts s c hp]
      obtain ⟨ex, h1, h2⟩ := ih s
      refine ⟨ex, h1, fun q hq => ⟨(h2 q hq).1, ?_⟩⟩
      rw [victimsOf_cons_none cfg c cs hp]
      exact (h2 q hq).2
    | some p =>
      by_cases hk : p.victim ∈ ledgerKeys s.active_kills
      · rw [stepCandidate_inLedger video cfg ts s c p hp hk]
        obtain ⟨ex, h1, h2⟩ := ih _
        refine ⟨ex, h1, fun q hq => ⟨(h2 q hq).1, ?_⟩⟩
        rw [victimsOf_cons_some cfg c cs p hp]
        exact List.mem_cons_of_mem _ ((h2 q hq).2)
      · rw [stepCandidate_new video cfg ts s c p hp hk]
        obtain ⟨ex, h1, h2⟩ := ih
          { active_kills := s.active_kills ++ [(p.victim, ts)],
            kill_events := s.kill_events ++ [mkKillEvent video ts p c],
            seen := p.victim :: s.seen }
        refine ⟨(p.victim, ts) :: ex, ?_, ?_⟩
        · simpa [List.append_assoc] using h1
        · intro q hq
          rcases List.mem_cons.mp hq with rfl | hq
          · exact ⟨rfl, by rw [victimsOf_cons_some cfg c cs p hp]; exact List.mem_cons_self _ _⟩
          · refine ⟨(h2 q hq).1, ?_⟩
            rw [victimsOf_cons_some cfg c cs p hp]
            exact List.mem_cons_of_mem _ ((h2 q hq).2)

lemma foldl_keys_mem (video : String) (cfg : AnalyzerConfig) (ts : ℚ) :
    ∀ (cs : List Candidate) (s : ScanState) (x : String),
      (x ∈ ledgerKeys (cs.foldl (stepCandidate video cfg ts) s).active_kills ↔
        x ∈ ledgerKeys s.active_kills ∨ x ∈ victimsOf cfg cs) := by
  intro cs
  induction cs with
  | nil => intro s x; simp [victimsOf]
  | cons c cs ih =>
    intro s x
    rw [List.foldl_cons]
    cases hp : candidateParse cfg c with
    | none =>
      rw [stepCandidate_none video cfg ts s c hp, victimsOf_cons_none cfg c cs hp]
      exact ih s x
    | some p =>
      rw [victimsOf_cons_some cfg c cs p hp]
      by_cases hk : p.victim ∈ ledgerKeys s.active_kills
      · rw [stepCandidate_inLedger video cfg ts s c p hp hk, ih]
        simp only [List.mem_cons]
        constructor
        · rintro (h | h)
          · exact Or.inl h
          · exact Or.inr (Or.inr h)
        · rintro (h | h | h)
          · exact Or.inl h
          · exact Or.inl (h ▸ hk)
          · exact Or.inr h
      · rw [stepCandidate_new video cfg ts s c p hp hk, ih]
        have hkeys : ∀ y : String,
            y ∈ ledgerKeys (s.active_kills ++ [(p.victim, ts)]) ↔
              y ∈ ledgerKeys s.active_kills ∨ y = p.victim := by
          intro y; simp [ledgerKeys]
        rw [hkeys]
        simp only [List.mem_cons]
        tauto

lemma filterVictim_append (v : String) (a b : List KillEvent) :
    filterVictim v (a ++ b) = filterVictim v a ++ filterVictim v b := by
  simp [filterVictim]

lemma filterVictim_singleton_ne (v : String) (e : KillEvent) (h : e.victim ≠ v) :
    filterVictim v [e] = [] := by
  simp [filterVictim, h]

lemma filterVictim_singleton_eq (v : String) (e : KillEvent) (h : e.victim = v) :
    filterVictim v [e] = [e] := by
  simp [filterVictim, h]

lemma foldl_events_pres (video : String) (cfg : AnalyzerConfig) (ts : ℚ) :
    ∀ (cs : List Candidate) (s : ScanState) (v : String),
      (v ∈ ledgerKeys s.active_kills ∨ v ∉ victimsOf cfg cs) →
      filterVictim v (cs.foldl (stepCandidate video cfg ts) s).kill_events =
        filterVictim v s.kill_events := by
  intro cs
  induction cs with
  | nil => intro s v _; rfl
  | cons c cs ih =>
    intro s v hv
    rw [List.foldl_cons]
    cases hp : candidateParse cfg c with
    | none =>
      rw [stepCandidate_none video cfg ts s c hp]
      rw [victimsOf_cons_none cfg c cs hp] at hv
      exact ih s v hv
    | some p =>
      rw [victimsOf_cons_some cfg c cs p hp] at hv
      by_cases hk : p.victim ∈ ledgerKeys s.active_kills
      · rw [stepCandidate_inLedger video cfg ts s c p hp hk]
        refine ih _ v ?_
        rcases hv with hv | hv
        · exact Or.inl hv
        · exact Or.inr (fun hm => hv (List.mem_cons_of_mem _ hm))
      · rw [stepCandidate_new video cfg ts s c p hp hk]
        have hne : v ≠ p.victim := by
          rcases hv with hv | hv
          · intro he; exact hk (he ▸ hv)
          · intro he; exact hv (he ▸ List.mem_cons_self _ _)
        have hstep : filterVictim v (s.kill_events ++ [mkKillEvent video ts p c]) =
            filterVictim v s.kill_events := by
          rw [filterVictim_append, filterVictim_singleton_ne v _ (fun h => hne h.symm)]
          simp
        rw [ih _ v ?side, hstep]
        case side =>
          rcases hv with hv | hv
          · refine Or.inl ?_
            rw [ledgerKeys_mem] at hv ⊢
            obtain ⟨t, ht⟩ := hv
            exact ⟨t, List.mem_append_left _ ht⟩
          · exact Or.inr (fun hm => hv (List.mem_cons_of_mem _ hm))

lemma foldl_events_emit (video : String) (cfg : AnalyzerConfig) (ts : ℚ) :
    ∀ (cs : List Candidate) (s : ScanState) (v : String),
      v ∉ ledgerKeys s.active_kills → v ∈ victimsOf cfg cs →
      ∃ e, filterVictim v (cs.foldl (stepCandidate video cfg ts) s).kill_events =
          filterVictim v s.kill_events ++ [e] ∧
        e.victim = v ∧ e.timestamp_seconds = ts ∧ e.source_video = video := by
  intro cs
  induction cs with
  | nil => intro s v _ hv; exact absurd hv (by simp [victimsOf])
  | cons c cs ih =>
    intro s v hkv hv
    rw [List.foldl_cons]
    cases hp : candidateParse cfg c with
    | none =>
      rw [stepCandidate_none video cfg ts s c hp]
      rw [victimsOf_cons_none cfg c cs hp] at hv
      exact ih s v hkv hv
    | some p =>
      rw [victimsOf_cons_some cfg c cs p hp] at hv
      by_cases hk : p.victim ∈ ledgerKeys s.active_kills
      · have hne : v ≠ p.victim := fun he => hkv (he ▸ hk)
        rw [stepCandidate_inLedger video cfg ts s c p hp hk]
        exact ih _ v hkv ((List.mem_cons.mp hv).resolve_left hne)
      · by_cases hvp : v = p.victim
        · subst hvp
          rw [stepCandidate_new video cfg ts s c p hp hk]
          refine ⟨mkKillEvent video ts p c, ?_, rfl, rfl, rfl⟩
          have hpres : filterVictim p.victim
              ((cs.foldl (stepCandidate video cfg ts)
                { active_kills := s.active_kills ++ [(p.victim, ts)],
                  kill_events := s.kill_events ++ [mkKillEvent video ts p c],
                  seen := p.victim :: s.seen }).kill_events) =
              filterVictim p.victim (s.kill_events ++ [mkKillEvent video ts p c]) := by
            refine foldl_events_pres video cfg ts cs _ p.victim (Or.inl ?_)
            rw [ledgerKeys_mem]
            exact ⟨ts, List.mem_append_right _ (List.mem_singleton_self _)⟩
          rw [hpres, filterVictim_append,
            filterVictim_singleton_eq p.victim (mkKillEvent video ts p c) rfl]
        · rw [stepCandidate_new video cfg ts s c p hp hk]
          have hkv' : v ∉ ledgerKeys (s.active_kills ++ [(p.victim, ts)]) := by
            rw [ledgerKeys_mem]
            rintro ⟨t, ht⟩
            rcases List.mem_append.mp ht with ht | ht
            · exact hkv ((ledgerKeys_mem _ _).mpr ⟨t, ht⟩)
            · rcases List.mem_singleton.mp ht with ht
              exact hvp (congrArg Prod.fst ht)
          obtain ⟨e, h1, h2⟩ := ih
            { active_kills := s.active_kills ++ [(p.victim, ts)],
              kill_events := s.kill_events ++ [mkKillEvent video ts p c],
              seen := p.victim :: s.seen } v hkv'
            ((List.mem_cons.mp hv).resolve_left hvp)
          refine ⟨e, ?_, h2⟩
          rw [h1, filterVictim_append, filterVictim_singleton_ne v _ (fun h => hvp h.symm)]
          simp

/-! ### Frame-level lemmas -/

lemma processFrame_scan (video : String) (cfg : AnalyzerConfig) (st : ScanState) (f : Frame) :
    processFrame video cfg st f =
      { f.candidates.foldl (stepCandidate video cfg f.timestamp) { st with seen := [] } with
        active_kills := sweepLedger cfg.memory_duration f.timestamp
          (f.candidates.foldl (stepCandidate video cfg f.timestamp) { st with seen := [] }).seen
          (f.candidates.foldl (stepCandidate video cfg f.timestamp)
            { st with seen := [] }).active_kills } := rfl

lemma processFrame_events_pres (video : String) (cfg : AnalyzerConfig)
    (st : ScanState) (f : Frame) (v : String)
    (h : v ∈ ledgerKeys st.active_kills ∨ v ∉ frameVictims cfg f) :
    filterVictim v (processFrame video cfg st f).kill_events =
      filterVictim v st.kill_events := by
  rw [processFrame_scan]
  exact foldl_events_pres video cfg f.timestamp f.candidates { st with seen := [] } v h

lemma processFrame_events_emit (video : String) (cfg : AnalyzerConfig)
    (st : ScanState) (f : Frame) (v : String)
    (hkv : v ∉ ledgerKeys st.active_kills) (hd : v ∈ frameVictims cfg f) :
    ∃ e, filterVictim v (processFrame video cfg st f).kill_events =
        filterVictim v st.kill_events ++ [e] ∧
      e.victim = v ∧ e.timestamp_seconds = f.timestamp ∧ e.source_video = video := by
  rw [processFrame_scan]
  exact foldl_events_emit video cfg f.timestamp f.candidates { st with seen := [] } v hkv hd

lemma processFrame_keys_detected (video : String) (cfg : AnalyzerConfig)
    (st : ScanState) (f : Frame) (v : String) (hd : v ∈ frameVictims cfg f) :
    v ∈ ledgerKeys (processFrame video cfg st f).active_kills := by
  rw [processFrame_scan]
  have hscan : v ∈ ledgerKeys
      (f.candidates.foldl (stepCandidate video cfg f.timestamp)
        { st with seen := [] }).active_kills :=
    (foldl_keys_mem video cfg f.timestamp f.candidates _ v).mpr (Or.inr hd)
  obtain ⟨t, ht⟩ := (ledgerKeys_mem _ _).mp hscan
  have hseen : v ∈ (f.candidates.foldl (stepCandidate video cfg f.timestamp)
      { st with seen := [] }).seen :=
    (foldl_seen_mem video cfg f.timestamp f.candidates _ v).mpr (Or.inr hd)
  refine (ledgerKeys_mem _ _).mpr ⟨t, ?_⟩
  unfold sweepLedger
  rw [List.mem_filter]
  exact ⟨ht, by simp [hseen]⟩

lemma processFrame_entry_detected (video : String) (cfg : AnalyzerConfig)
    (st : ScanState) (f : Frame) (v : String) (t : ℚ)
    (hd : v ∈ frameVictims cfg f) (hm : (v, t) ∈ st.active_kills) :
    (v, t) ∈ (processFrame video cfg st f).active_kills := by
  rw [processFrame_scan]
  obtain ⟨ex, hdec, _⟩ := foldl_ledger_decomp video cfg f.timestamp f.candidates
    { st with seen := [] }
  have hseen : v ∈ (f.candidates.foldl (stepCandidate video cfg f.timestamp)
      { st with seen := [] }).seen :=
    (foldl_seen_mem video cfg f.timestamp f.candidates _ v).mpr (Or.inr hd)
  unfold sweepLedger
  rw [List.mem_filter]
  refine ⟨?_, by simp [hseen]⟩
  rw [hdec]
  exact List.mem_append_left _ hm

lemma processFrame_entry_undetected (video : String) (cfg : AnalyzerConfig)
    (st : ScanState) (f : Frame) (v : String) (t : ℚ)
    (hd : v ∉ frameVictims cfg f) :
    ((v, t) ∈ (processFrame video cfg st f).active_kills ↔
      (v, t) ∈ st.active_kills ∧ f.timestamp - t ≤ cfg.memory_duration) := by
  rw [processFrame_scan]
  obtain ⟨ex, hdec, hex⟩ := foldl_ledger_decomp video cfg f.timestamp f.candidates
    { st with seen := [] }
  have hseen : v ∉ (f.candidates.foldl (stepCandidate video cfg f.timestamp)
      { st with seen := [] }).seen := by
    intro h
    rcases (foldl_seen_mem video cfg f.timestamp f.candidates _ v).mp h with h | h
    · simp at h
    · exact hd h
  unfold sweepLedger
  rw [List.mem_filter, hdec, List.mem_append]
  constructor
  · rintro ⟨hm | hm, hpred⟩
    · refine ⟨hm, ?_⟩
      simp only [decide_eq_false hseen, Bool.false_or, Bool.not_eq_true',
        decide_eq_false_iff_not, not_lt] at hpred
      exact hpred
    · exact absurd (hex _ hm).2 hd
  · rintro ⟨hm, hle⟩
    refine ⟨Or.inl hm, ?_⟩
    simp [hseen, not_lt.mpr hle]

lemma processFrame_entry_src (video : String) (cfg : AnalyzerConfig)
    (st : ScanState) (f : Frame) (q : String × ℚ)
    (h : q ∈ (processFrame video cfg st f).active_kills) :
    q ∈ st.active_kills ∨ q.2 = f.timestamp := by
  rw [processFrame_scan] at h
  obtain ⟨ex, hdec, hex⟩ := foldl_ledger_decomp video cfg f.timestamp f.candidates
    { st with seen := [] }
  unfold sweepLedger at h
  rw [List.mem_filter, hdec, List.mem_append] at h
  rcases h.1 with hm | hm
  · exact Or.inl hm
  · exact Or.inr (hex _ hm).1

/-! ### Video-level lemmas -/

lemma runFrames_nil (video : String) (cfg : AnalyzerConfig) (st : ScanState) :
    runFrames video cfg st [] = st := rfl

lemma runFrames_cons (video : String) (cfg : AnalyzerConfig) (st : ScanState)
    (f : Frame) (fs : List Frame) :
    runFrames video cfg st (f :: fs) = runFrames video cfg (processFrame video cfg st f) fs := rfl

lemma runFrames_pres (video : String) (cfg : AnalyzerConfig) :
    ∀ (frames : List Frame) (st : ScanState) (v : String),
      v ∈ ledgerKeys st.active_kills → (∀ f ∈ frames, v ∈ frameVictims cfg f) →
      filterVictim v (runFrames video cfg st frames).kill_events =
        filterVictim v st.kill_events ∧
      v ∈ ledgerKeys (runFrames video cfg st frames).active_kills := by
  intro frames
  induction frames with
  | nil => intro st v hk _; exact ⟨rfl, hk⟩
  | cons f fs ih =>
    intro st v hk hd
    rw [runFrames_cons]
    have hd0 : v ∈ frameVictims cfg f := hd f (List.mem_cons_self _ _)
    obtain ⟨h1, h2⟩ := ih (processFrame video cfg st f) v
      (processFrame_keys_detected video cfg st f v hd0)
      (fun g hg => hd g (List.mem_cons_of_mem _ hg))
    refine ⟨?_, h2⟩
    rw [h1, processFrame_events_pres video cfg st f v (Or.inl hk)]

lemma readFrames_map_some (video : String) (cfg : AnalyzerConfig) :
    ∀ (frames : List Frame) (st : ScanState),
      readFrames video cfg st (frames.map some) = runFrames video cfg st frames := by
  intro frames
  induction frames with
  | nil => intro st; rfl
  | cons f fs ih => intro st; exact ih (processFrame video cfg st f)

lemma readFrames_break (video : String) (cfg : AnalyzerConfig) :
    ∀ (pre : List Frame) (rest : List (Option Frame)) (st : ScanState),
      readFrames video cfg st (pre.map some ++ none :: rest) =
        runFrames video cfg st pre := by
  intro pre
  induction pre with
  | nil => intro rest st; rfl
  | cons f fs ih => intro rest st; exact ih rest (processFrame video cfg st f)

/-! Concrete analyzer fixtures for witnesses. -/

/-- A concrete analyzer configuration (the repository's defaults,
`memory_duration` 7 s). -/
def acfg0 : AnalyzerConfig := { min_h := 10, max_h := 50, min_aspect := 3, memory_duration := 7 }

/-- A candidate whose crop OCRs to the given strings. -/
def candOf (ocr : List String) : Candidate :=
  { w := 100, h := 20, ocr_result := ocr, headshot_icon := false, smoke_icon := false }

/-- A frame fixture. -/
def frameOf (t : ℚ) (cs : List Candidate) : Frame := { timestamp := t, candidates := cs }

/-- C1: a victim not in the active-kill ledger yields, at its candidate,
exactly one appended kill event and an immediate ledger entry; a victim
already in the ledger yields no event; consequently a victim detected
in every sampled frame of a span shorter than `memory_duration`
produces exactly one kill event, timestamped at the first frame. -/
theorem killfeed_emits_once :
    (∀ (video : String) (cfg : AnalyzerConfig) (ts : ℚ) (s : ScanState)
        (c : Candidate) (p : ParsedKill),
      candidateParse cfg c = some p → p.victim ∉ ledgerKeys s.active_kills →
      (stepCandidate video cfg ts s c).kill_events =
          s.kill_events ++ [mkKillEvent video ts p c] ∧
        p.victim ∈ ledgerKeys (stepCandidate video cfg ts s c).active_kills) ∧
    (∀ (video : String) (cfg : AnalyzerConfig) (ts : ℚ) (s : ScanState)
        (c : Candidate) (p : ParsedKill),
      candidateParse cfg c = some p → p.victim ∈ ledgerKeys s.active_kills →
      (stepCandidate video cfg ts s c).kill_events = s.kill_events) ∧
    (∀ (video : String) (cfg : AnalyzerConfig) (v : String) (f0 : Frame) (rest : List Frame),
      (∀ f ∈ f0 :: rest, v ∈ frameVictims cfg f) →
      (∀ f ∈ f0 :: rest, f.timestamp - f0.timestamp < cfg.memory_duration) →
      countVictim v (analyze_killfeed video cfg true ((f0 :: rest).map some)) = 1 ∧
      (∀ e ∈ analyze_killfeed video cfg true ((f0 :: rest).map some),
        e.victim = v → e.timestamp_seconds = f0.timestamp)) := by
  refine ⟨?_, ?_, ?_⟩
  · intro video cfg ts s c p hp hk
    rw [stepCandidate_new video cfg ts s c p hp hk]
    refine ⟨rfl, ?_⟩
    simp [ledgerKeys]
  · intro video cfg ts s c p hp hk
    rw [stepCandidate_inLedger video cfg ts s c p hp hk]
  · intro video cfg v f0 rest hdall _
    have hana : analyze_killfeed video cfg true ((f0 :: rest).map some) =
        (runFrames video cfg (processFrame video cfg initScan f0) rest).kill_events := by
      show (readFrames video cfg initScan ((f0 :: rest).map some)).kill_events = _
      rw [readFrames_map_some video cfg (f0 :: rest) initScan, runFrames_cons]
    have hd0 : v ∈ frameVictims cfg f0 := hdall f0 (List.mem_cons_self _ _)
    obtain ⟨e, he, hev, hets, _⟩ :=
      processFrame_events_emit video cfg initScan f0 v (by simp [initScan, ledgerKeys]) hd0
    have he1 : filterVictim v (processFrame video cfg initScan f0).kill_events = [e] := by
      rw [he]; rfl
    obtain ⟨hf, _⟩ := runFrames_pres video cfg rest (processFrame video cfg initScan f0) v
      (processFrame_keys_detected video cfg initScan f0 v hd0)
      (fun g hg => hdall g (List.mem_cons_of_mem _ hg))
    have hfin : filterVictim v
        (runFrames video cfg (processFrame video cfg initScan f0) rest).kill_events = [e] := by
      rw [hf, he1]
    constructor
    · rw [countVictim_eq_length, hana, hfin]
      rfl
    · intro e' he' hv'
      rw [hana] at he'
      have : e' ∈ filterVictim v
          (runFrames video cfg (processFrame video cfg initScan f0) rest).kill_events :=
        List.mem_filter.mpr ⟨he', by simp [hv']⟩
      rw [hfin, List.mem_singleton] at this
      rw [this, hets]

/-- The fixture candidate parses to the victim "Bob". -/
lemma frameVictims_fixture (t : ℚ) :
    frameVictims acfg0 (frameOf t [candOf ["Alice", "Bob"]]) = ["Bob"] := by
  have hshape : shapeOk acfg0 (candOf ["Alice", "Bob"]) = true := by
    unfold shapeOk candOf acfg0
    norm_num
  simp only [candOf] at hshape
  have hpp : parse_and_identify_kill (String.intercalate " " ["Alice", "Bob"]) =
      some { killer := "Alice", assister := none, victim := "Bob",
             is_player_kill := true, raw_text := "Alice Bob" } := by decide
  simp [frameVictims, victimsOf, frameOf, candidateParse, hshape, candOf, hpp]

/-- Witness for C1: the victim "Bob" detected in two sampled frames
0.5 s apart (memory 7 s) yields exactly one kill event, at the first
frame's timestamp. -/
theorem killfeed_emits_once_witness :
    ((∀ f ∈ frameOf 10 [candOf ["Alice", "Bob"]] ::
        [frameOf (21 / 2) [candOf ["Alice", "Bob"]]],
        "Bob" ∈ frameVictims acfg0 f) ∧
      (∀ f ∈ frameOf 10 [candOf ["Alice", "Bob"]] ::
        [frameOf (21 / 2) [candOf ["Alice", "Bob"]]],
        f.timestamp - (frameOf 10 [candOf ["Alice", "Bob"]]).timestamp <
          acfg0.memory_duration)) ∧
    (countVictim "Bob" (analyze_killfeed "game.mp4" acfg0 true
        ((frameOf 10 [candOf ["Alice", "Bob"]] ::
          [frameOf (21 / 2) [candOf ["Alice", "Bob"]]]).map some)) = 1 ∧
      (∀ e ∈ analyze_killfeed "game.mp4" acfg0 true
          ((frameOf 10 [candOf ["Alice", "Bob"]] ::
            [frameOf (21 / 2) [candOf ["Alice", "Bob"]]]).map some),
        e.victim = "Bob" →
          e.timestamp_seconds = (frameOf 10 [candOf ["Alice", "Bob"]]).timestamp)) := by
  have hframes : ∀ f ∈ frameOf 10 [candOf ["Alice", "Bob"]] ::
      [frameOf (21 / 2) [candOf ["Alice", "Bob"]]], "Bob" ∈ frameVictims acfg0 f := by
    intro f hf
    simp only [List.mem_cons, List.not_mem_nil, or_false] at hf
    rcases hf with rfl | rfl
    · rw [frameVictims_fixture]; exact List.mem_singleton_self _
    · rw [frameVictims_fixture]; exact List.mem_singleton_self _
  have hspan : ∀ f ∈ frameOf 10 [candOf ["Alice", "Bob"]] ::
      [frameOf (21 / 2) [candOf ["Alice", "Bob"]]],
      f.timestamp - (frameOf 10 [candOf ["Alice", "Bob"]]).timestamp <
        acfg0.memory_duration := by
    intro f hf
    simp only [List.mem_cons, List.not_mem_nil, or_false] at hf
    rcases hf with rfl | rfl
    · norm_num [frameOf, acfg0]
    · norm_num [frameOf, acfg0]
  exact ⟨⟨hframes, hspan⟩,
    killfeed_emits_once.2.2 "game.mp4" acfg0 "Bob"
      (frameOf 10 [candOf ["Alice", "Bob"]])
      [frameOf (21 / 2) [candOf ["Alice", "Bob"]]] hframes hspan⟩

/-- C2: after a frame's candidates are processed, a ledger entry whose
victim is not detected in that frame survives iff the frame timestamp
exceeds its `first_seen` by at most `memory_duration`; an entry whose
victim is detected this frame is never evicted, regardless of age; and
a victim detected once, absent in a later frame more than
`memory_duration` after its first sighting, then re-detected, produces
a second, independent kill event. -/
theorem killfeed_eviction :
    (∀ (video : String) (cfg : AnalyzerConfig) (st : ScanState) (f : Frame)
        (v : String) (t : ℚ),
      v ∉ frameVictims cfg f →
      ((v, t) ∈ (processFrame video cfg st f).active_kills ↔
        (v, t) ∈ st.active_kills ∧ f.timestamp - t ≤ cfg.memory_duration)) ∧
    (∀ (video : String) (cfg : AnalyzerConfig) (st : ScanState) (f : Frame)
        (v : String) (t : ℚ),
      v ∈ frameVictims cfg f → (v, t) ∈ st.active_kills →
      (v, t) ∈ (processFrame video cfg st f).active_kills) ∧
    (∀ (video : String) (cfg : AnalyzerConfig) (v : String) (f1 f2 f3 : Frame),
      v ∈ frameVictims cfg f1 → v ∉ frameVictims cfg f2 →
      cfg.memory_duration < f2.timestamp - f1.timestamp → v ∈ frameVictims cfg f3 →
      countVictim v (analyze_killfeed video cfg true [some f1, some f2, some f3]) = 2) := by
  refine ⟨?_, ?_, ?_⟩
  · intro video cfg st f v t hd
    exact processFrame_entry_undetected video cfg st f v t hd
  · intro video cfg st f v t hd hm
    exact processFrame_entry_detected video cfg st f v t hd hm
  · intro video cfg v f1 f2 f3 h1 h2 hgap h3
    have hana : analyze_killfeed video cfg true [some f1, some f2, some f3] =
        (processFrame video cfg (processFrame video cfg
          (processFrame video cfg initScan f1) f2) f3).kill_events := by
      show (readFrames video cfg initScan ([f1, f2, f3].map some)).kill_events = _
      rw [readFrames_map_some video cfg [f1, f2, f3] initScan]
      rfl
    obtain ⟨e1, he1, he1v, he1t, _⟩ :=
      processFrame_events_emit video cfg initScan f1 v (by simp [initScan, ledgerKeys]) h1
    have hev1 : filterVictim v (processFrame video cfg initScan f1).kill_events = [e1] := by
      rw [he1]; rfl
    have hts1 : ∀ q ∈ (processFrame video cfg initScan f1).active_kills,
        q.2 = f1.timestamp := by
      intro q hq
      rcases processFrame_entry_src video cfg initScan f1 q hq with hq' | hq'
      · exact absurd hq' (by simp [initScan])
      · exact hq'
    have hev2 : filterVictim v (processFrame video cfg
        (processFrame video cfg initScan f1) f2).kill_events = [e1] := by
      rw [processFrame_events_pres video cfg _ f2 v (Or.inr h2), hev1]
    have hk2 : v ∉ ledgerKeys (processFrame video cfg
        (processFrame video cfg initScan f1) f2).active_kills := by
      rw [ledgerKeys_mem]
      rintro ⟨t, ht⟩
      obtain ⟨hm, hle⟩ :=
        (processFrame_entry_undetected video cfg _ f2 v t h2).mp ht
      have : t = f1.timestamp := hts1 (v, t) hm
      rw [this] at hle
      linarith
    obtain ⟨e3, he3, he3v, he3t, _⟩ :=
      processFrame_events_emit video cfg _ f3 v hk2 h3
    rw [countVictim_eq_length, hana, he3, hev2]
    rfl

/-- Witness for C2: "Bob" detected at t = 10, absent at t = 18
(more than 7 s later), re-detected at t = 19: two kill events. -/
theorem killfeed_eviction_witness :
    ("Bob" ∈ frameVictims acfg0 (frameOf 10 [candOf ["Alice", "Bob"]]) ∧
      "Bob" ∉ frameVictims acfg0 (frameOf 18 [candOf ["Dan", "Carl"]]) ∧
      acfg0.memory_duration <
        (frameOf 18 [candOf ["Dan", "Carl"]]).timestamp -
          (frameOf 10 [candOf ["Alice", "Bob"]]).timestamp ∧
      "Bob" ∈ frameVictims acfg0 (frameOf 19 [candOf ["Alice", "Bob"]])) ∧
    countVictim "Bob" (analyze_killfeed "game.mp4" acfg0 true
      [some (frameOf 10 [candOf ["Alice", "Bob"]]),
       some (frameOf 18 [candOf ["Dan", "Carl"]]),
       some (frameOf 19 [candOf ["Alice", "Bob"]])]) = 2 := by
  have hb1 : "Bob" ∈ frameVictims acfg0 (frameOf 10 [candOf ["Alice", "Bob"]]) := by
    rw [frameVictims_fixture]; exact List.mem_singleton_self _
  have hb3 : "Bob" ∈ frameVictims acfg0 (frameOf 19 [candOf ["Alice", "Bob"]]) := by
    rw [frameVictims_fixture]; exact List.mem_singleton_self _
  have hcarl : frameVictims acfg0 (frameOf 18 [candOf ["Dan", "Carl"]]) = ["Carl"] := by
    have hshape : shapeOk acfg0 (candOf ["Dan", "Carl"]) = true := by
      unfold shapeOk candOf acfg0
      norm_num
    simp only [candOf] at hshape
    have hpp : parse_and_identify_kill (String.intercalate " " ["Dan", "Carl"]) =
        some { killer := "Dan", assister := none, victim := "Carl",
               is_player_kill := true, raw_text := "Dan Carl" } := by decide
    simp [frameVictims, victimsOf, frameOf, candidateParse, hshape, candOf, hpp]
  have hb2 : "Bob" ∉ frameVictims acfg0 (frameOf 18 [candOf ["Dan", "Carl"]]) := by
    rw [hcarl]; decide
  have hgap : acfg0.memory_duration <
      (frameOf 18 [candOf ["Dan", "Carl"]]).timestamp -
        (frameOf 10 [candOf ["Alice", "Bob"]]).timestamp := by
    norm_num [frameOf, acfg0]
  exact ⟨⟨hb1, hb2, hgap, hb3⟩,
    killfeed_eviction.2.2 "game.mp4" acfg0 "Bob"
      (frameOf 10 [candOf ["Alice", "Bob"]])
      (frameOf 18 [candOf ["Dan", "Carl"]])
      (frameOf 19 [candOf ["Alice", "Bob"]]) hb1 hb2 hgap hb3⟩

/-- C6: when the video cannot be opened, kill-feed analysis returns the
empty event list; when a sampled frame fails to decode, the loop breaks
and the events accumulated on the decoded prefix are returned; with no
failures, the full frame list is processed.  The embedding is a total
function, so no exception escapes the per-video analysis. -/
theorem killfeed_error_handling :
    (∀ (video : String) (cfg : AnalyzerConfig) (reads : List (Option Frame)),
      analyze_killfeed video cfg false reads = []) ∧
    (∀ (video : String) (cfg : AnalyzerConfig) (pre : List Frame)
        (rest : List (Option Frame)),
      analyze_killfeed video cfg true (pre.map some ++ none :: rest) =
        (runFrames video cfg initScan pre).kill_events) ∧
    (∀ (video : String) (cfg : AnalyzerConfig) (frames : List Frame),
      analyze_killfeed video cfg true (frames.map some) =
        (runFrames video cfg initScan frames).kill_events) := by
  refine ⟨?_, ?_, ?_⟩
  · intro video cfg reads
    rfl
  · intro video cfg pre rest
    show (readFrames video cfg initScan (pre.map some ++ none :: rest)).kill_events = _
    rw [readFrames_break video cfg pre rest initScan]
  · intro video cfg frames
    show (readFrames video cfg initScan (frames.map some)).kill_events = _
    rw [readFrames_map_some video cfg frames initScan]

/-! ### Lemmas about the merge pass -/

lemma clipLE_refl (c : Clip) : clipLE c c := Or.inr ⟨rfl, le_refl _⟩

lemma mergeLoop_cons (σ : SetOrder) (r c : Clip) (rest : List Clip) :
    mergeLoop σ r (c :: rest) =
      if r.source_video == c.source_video && decide (c.clip_start < r.clip_end) then
        mergeLoop σ (absorbClip σ r c) rest
      else
        r :: mergeLoop σ c rest := rfl

lemma mergeLoop_lowerBound (σ : SetOrder) :
    ∀ (cs : List Clip) (r : Clip),
      (∀ c ∈ cs, clipLE r c) → cs.Pairwise clipLE →
      ∀ x ∈ mergeLoop σ r cs, clipLE r x := by
  intro cs
  induction cs with
  | nil =>
    intro r _ _ x hx
    rw [List.mem_singleton.mp hx]
    exact clipLE_refl r
  | cons c rest ih =>
    intro r hLB hsort x hx
    rw [mergeLoop_cons] at hx
    rcases List.pairwise_cons.mp hsort with ⟨hc, hrest⟩
    by_cases hcond :
        (r.source_video == c.source_video && decide (c.clip_start < r.clip_end)) = true
    · rw [if_pos hcond] at hx
      exact ih (absorbClip σ r c)
        (fun y hy => hLB y (List.mem_cons_of_mem _ hy)) hrest x hx
    · rw [if_neg hcond] at hx
      rcases List.mem_cons.mp hx with rfl | hx
      · exact clipLE_refl x
      · exact IsTrans.trans r c x (hLB c (List.mem_cons_self _ _)) (ih c hc hrest x hx)

/-- Non-overlap (with start-sortedness) between two clips. -/
def clipNonOverlap (a b : Clip) : Prop :=
  a.clip_start ≤ b.clip_start ∧ a.clip_end ≤ b.clip_start

lemma mergeLoop_filter_pairwise (σ : SetOrder) :
    ∀ (cs : List Clip) (r : Clip),
      (∀ c ∈ cs, clipLE r c) → cs.Pairwise clipLE → ∀ v : String,
      ((mergeLoop σ r cs).filter (fun c => c.source_video == v)).Pairwise clipNonOverlap := by
  intro cs
  induction cs with
  | nil =>
    intro r _ _ v
    exact ((List.pairwise_singleton _ r).filter _)
  | cons c rest ih =>
    intro r hLB hsort v
    rw [mergeLoop_cons]
    rcases List.pairwise_cons.mp hsort with ⟨hc, hrest⟩
    by_cases hcond :
        (r.source_video == c.source_video && decide (c.clip_start < r.clip_end)) = true
    · rw [if_pos hcond]
      exact ih (absorbClip σ r c)
        (fun y hy => hLB y (List.mem_cons_of_mem _ hy)) hrest v
    · rw [if_neg hcond, List.filter_cons]
      by_cases hrv : (r.source_video == v) = true
      · rw [if_pos hrv]
        rw [List.pairwise_cons]
        refine ⟨?_, ih c hc hrest v⟩
        intro x hxf
        rcases List.mem_filter.mp hxf with ⟨hxM, hxv⟩
        have hcx : clipLE c x := mergeLoop_lowerBound σ rest c hc hrest x hxM
        have hrc : clipLE r c := hLB c (List.mem_cons_self _ _)
        have hxvr : x.source_video = r.source_video := by
          rw [beq_iff_eq.mp hxv, beq_iff_eq.mp hrv]
        by_cases hsvc : r.source_video = c.source_video
        · have hre : ¬ c.clip_start < r.clip_end := by
            intro hlt
            exact hcond (by simp [hsvc, hlt])
          have hcs : c.clip_start ≤ x.clip_start := by
            rcases hcx with h | ⟨_, h⟩
            · exact absurd h (by rw [hxvr, hsvc]; exact lt_irrefl _)
            · exact h
          have hrs : r.clip_start ≤ c.clip_start := by
            rcases hrc with h | ⟨_, h⟩
            · exact absurd h (hsvc ▸ lt_irrefl _)
            · exact h
          exact ⟨le_trans hrs hcs, le_trans (not_lt.mp hre) hcs⟩
        · have hlt : r.source_video < c.source_video := by
            rcases hrc with h | ⟨h, _⟩
            · exact h
            · exact absurd h hsvc
          rcases hcx with h | ⟨h, _⟩
          · exact absurd (lt_trans hlt h) (hxvr ▸ lt_irrefl _)
          · exact absurd (h ▸ hlt) (hxvr ▸ lt_irrefl _)
      · rw [if_neg hrv]
        exact ih c hc hrest v

/-- C3: after the merge pass over candidates sorted by
`(source_video, clip_start)`, the clips of any fixed source video are
sorted by `clip_start` and pairwise non-overlapping
(`clip_end[i] ≤ clip_start[i+1]`); and an overlapping same-video
candidate is absorbed into the running clip by extending its end to the
max of the two ends, summing the scores, and unioning the tag sets. -/
theorem merge_invariant :
    (∀ (σ : SetOrder) (cands : List Clip) (v : String),
      ((mergePass σ cands).filter (fun c => c.source_video == v)).Pairwise clipNonOverlap) ∧
    (∀ (σ : SetOrder) (r c : Clip) (rest : List Clip),
      r.source_video = c.source_video → c.clip_start < r.clip_end →
      mergeLoop σ r (c :: rest) = mergeLoop σ (absorbClip σ r c) rest ∧
      (absorbClip σ r c).clip_end = max r.clip_end c.clip_end ∧
      (absorbClip σ r c).score = r.score + c.score ∧
      (ValidSetOrder σ →
        ∀ x, (x ∈ (absorbClip σ r c).tags ↔ x ∈ r.tags ∨ x ∈ c.tags))) := by
  constructor
  · intro σ cands v
    unfold mergePass
    cases h : List.insertionSort clipLE cands with
    | nil => exact List.Pairwise.nil
    | cons m0 ms =>
      have hsort : (m0 :: ms).Pairwise clipLE := by
        rw [← h]
        exact List.sorted_insertionSort clipLE cands
      rcases List.pairwise_cons.mp hsort with ⟨hLB, hrest⟩
      exact mergeLoop_filter_pairwise σ ms m0 hLB hrest v
  · intro σ r c rest hsv hlt
    refine ⟨?_, rfl, rfl, ?_⟩
    · rw [mergeLoop_cons, if_pos (by simp [hsv, hlt])]
    · intro hσ x
      show x ∈ mergeTags σ r.tags c.tags ↔ _
      unfold mergeTags
      rw [(hσ ((r.tags ++ c.tags).dedup)).mem_iff]
      simp [List.mem_dedup]

/-- Concrete clips for the C3 witness: two overlapping windows of the
same video. -/
def clipA : Clip :=
  { source_video := "game.mp4", clip_start := 93, clip_end := 108, score := 35,
    tags := ["multi-kill"], events_in_window := [] }

/-- Second fixture clip, overlapping `clipA`. -/
def clipB : Clip :=
  { source_video := "game.mp4", clip_start := 95, clip_end := 110, score := 35,
    tags := ["loud_reaction"], events_in_window := [] }

/-- Witness for C3's absorption step on two concrete overlapping clips. -/
theorem merge_invariant_witness :
    (clipA.source_video = clipB.source_video ∧ clipB.clip_start < clipA.clip_end) ∧
    (mergeLoop insertionOrder clipA (clipB :: []) =
        mergeLoop insertionOrder (absorbClip insertionOrder clipA clipB) [] ∧
      (absorbClip insertionOrder clipA clipB).clip_end = max clipA.clip_end clipB.clip_end ∧
      (absorbClip insertionOrder clipA clipB).score = clipA.score + clipB.score ∧
      (ValidSetOrder insertionOrder →
        ∀ x, (x ∈ (absorbClip insertionOrder clipA clipB).tags ↔
          x ∈ clipA.tags ∨ x ∈ clipB.tags))) :=
  ⟨⟨rfl, by norm_num [clipA, clipB]⟩,
    merge_invariant.2 insertionOrder clipA clipB [] rfl (by norm_num [clipA, clipB])⟩

/-! ### Lemmas about window scoring -/

lemma scoreAndTags_fst (w : ScoringWeights) (wd : List Event) :
    (scoreAndTags w wd).1 =
      ((wd.filter (fun e => e.etype == EType.kill)).length : ℚ) * w.kill +
      (if 1 < (wd.filter (fun e => e.etype == EType.kill)).length
        then w.multi_kill_bonus else 0) +
      (if (wd.filter (fun e => e.etype == EType.chat)).any
          (fun e => strContainsStr "rage" e.details_str) = true
        then w.enemy_rage_chat else 0) +
      (if (wd.filter (fun e => e.etype == EType.voice)).any
          (fun e => strContainsStr "hype" e.details_str) = true
        then w.team_hype_voice else 0) +
      (if (wd.filter (fun e => e.etype == EType.audio_spike)).isEmpty = false
        then w.audio_spike else 0) := by
  simp only [scoreAndTags, decide_eq_true_eq, Bool.not_eq_true']
  split_ifs <;> ring

lemma mem_ite_tag (b : Prop) [Decidable b] (s x : String) :
    (x ∈ (if b then [s] else [])) ↔ b ∧ x = s := by
  split <;> simp [*]

lemma scoreAndTags_snd (w : ScoringWeights) (wd : List Event) :
    (scoreAndTags w wd).2 =
      (if 1 < (wd.filter (fun e => e.etype == EType.kill)).length
        then ["multi-kill"] else []) ++
      (if (wd.filter (fun e => e.etype == EType.chat)).any
          (fun e => strContainsStr "rage" e.details_str) = true
        then ["enemy_rage"] else []) ++
      (if (wd.filter (fun e => e.etype == EType.voice)).any
          (fun e => strContainsStr "hype" e.details_str) = true
        then ["team_hype"] else []) ++
      (if (wd.filter (fun e => e.etype == EType.audio_spike)).isEmpty = false
        then ["loud_reaction"] else []) := by
  simp only [scoreAndTags, decide_eq_true_eq, Bool.not_eq_true']
  split_ifs <;> rfl

lemma scoreAndTags_snd_mem (w : ScoringWeights) (wd : List Event) (x : String) :
    (x ∈ (scoreAndTags w wd).2 ↔
      (x = "multi-kill" ∧ 1 < (wd.filter (fun e => e.etype == EType.kill)).length) ∨
      (x = "enemy_rage" ∧ (wd.filter (fun e => e.etype == EType.chat)).any
        (fun e => strContainsStr "rage" e.details_str) = true) ∨
      (x = "team_hype" ∧ (wd.filter (fun e => e.etype == EType.voice)).any
        (fun e => strContainsStr "hype" e.details_str) = true) ∨
      (x = "loud_reaction" ∧ (wd.filter (fun e => e.etype == EType.audio_spike)).isEmpty = false)) := by
  simp only [scoreAndTags_snd, List.mem_append, mem_ite_tag]
  tauto

lemma any_filter_iff (ty : EType) (q : Event → Bool) (l : List Event) :
    (((l.filter (fun e => e.etype == ty)).any q = true) ↔
      ∃ e ∈ l, e.etype = ty ∧ q e = true) := by
  rw [List.any_eq_true]
  constructor
  · rintro ⟨e, he, hq⟩
    rcases List.mem_filter.mp he with ⟨hel, hety⟩
    exact ⟨e, hel, beq_iff_eq.mp hety, hq⟩
  · rintro ⟨e, hel, hety, hq⟩
    exact ⟨e, List.mem_filter.mpr ⟨hel, beq_iff_eq.mpr hety⟩, hq⟩

lemma isEmpty_filter_iff (ty : EType) (l : List Event) :
    (((l.filter (fun e => e.etype == ty)).isEmpty = false) ↔ ∃ e ∈ l, e.etype = ty) := by
  rw [List.isEmpty_eq_false_iff_exists_mem]
  constructor
  · rintro ⟨e, he⟩
    rcases List.mem_filter.mp he with ⟨hel, hety⟩
    exact ⟨e, hel, beq_iff_eq.mp hety⟩
  · rintro ⟨e, hel, hety⟩
    exact ⟨e, List.mem_filter.mpr ⟨hel, beq_iff_eq.mpr hety⟩⟩

lemma count_filter_eq (p : Event → Bool) (l : List Event) (e : Event) :
    (l.filter p).count e = if p e = true then l.count e else 0 := by
  induction l with
  | nil => simp
  | cons a l ih =>
    rw [List.filter_cons]
    by_cases hpa : p a = true
    · rw [if_pos hpa]
      by_cases hae : a = e
      · subst hae
        simp [List.count_cons_self, ih, hpa]
      · rw [List.count_cons_of_ne (fun h => hae h.symm),
          List.count_cons_of_ne (fun h => hae h.symm), ih]
    · rw [if_neg hpa, ih]
      by_cases hae : a = e
      · subst hae
        simp [hpa]
      · rw [List.count_cons_of_ne (fun h => hae h.symm)]

/-- C4's contract for one trigger: the candidate clip exists, its
window collects exactly the events of the trigger's video inside
`[t − pre_buffer, t + post_buffer]` (with multiplicity), and its score
and tags follow the weight table. -/
def windowContract (cfg : CorrelatorConfig) (σ : SetOrder) (evs : List Event)
    (t : Event) : Prop :=
  ∃ c, mkCandidate cfg σ (List.insertionSort eventLE evs) t = some c ∧
    c.source_video = t.source_video ∧
    c.clip_start = t.timestamp_seconds - cfg.pre_buffer ∧
    c.clip_end = t.timestamp_seconds + cfg.post_buffer ∧
    (∀ e : Event, c.events_in_window.count e =
      if e.source_video = t.source_video ∧
          t.timestamp_seconds - cfg.pre_buffer ≤ e.timestamp_seconds ∧
          e.timestamp_seconds ≤ t.timestamp_seconds + cfg.post_buffer
        then evs.count e else 0) ∧
    c.score =
      ((c.events_in_window.filter (fun e => e.etype == EType.kill)).length : ℚ) *
          cfg.weights.kill +
        (if 1 < (c.events_in_window.filter (fun e => e.etype == EType.kill)).length
          then cfg.weights.multi_kill_bonus else 0) +
        (if ∃ e ∈ c.events_in_window, e.etype = EType.chat ∧
            strContainsStr "rage" e.details_str = true
          then cfg.weights.enemy_rage_chat else 0) +
        (if ∃ e ∈ c.events_in_window, e.etype = EType.voice ∧
            strContainsStr "hype" e.details_str = true
          then cfg.weights.team_hype_voice else 0) +
        (if ∃ e ∈ c.events_in_window, e.etype = EType.audio_spike
          then cfg.weights.audio_spike else 0) ∧
    ("multi-kill" ∈ c.tags ↔
      1 < (c.events_in_window.filter (fun e => e.etype == EType.kill)).length) ∧
    ("enemy_rage" ∈ c.tags ↔ ∃ e ∈ c.events_in_window, e.etype = EType.chat ∧
      strContainsStr "rage" e.details_str = true) ∧
    ("team_hype" ∈ c.tags ↔ ∃ e ∈ c.events_in_window, e.etype = EType.voice ∧
      strContainsStr "hype" e.details_str = true) ∧
    ("loud_reaction" ∈ c.tags ↔ ∃ e ∈ c.events_in_window, e.etype = EType.audio_spike)

/-- The clip value `mkCandidate` produces when the window is nonempty. -/
def mkCandidateClip (cfg : CorrelatorConfig) (σ : SetOrder) (df : List Event)
    (trigger : Event) : Clip :=
  { source_video := trigger.source_video,
    clip_start := trigger.timestamp_seconds - cfg.pre_buffer,
    clip_end := trigger.timestamp_seconds + cfg.post_buffer,
    score := (scoreAndTags cfg.weights (windowOf df trigger.source_video
      (trigger.timestamp_seconds - cfg.pre_buffer)
      (trigger.timestamp_seconds + cfg.post_buffer))).1,
    tags := σ (scoreAndTags cfg.weights (windowOf df trigger.source_video
      (trigger.timestamp_seconds - cfg.pre_buffer)
      (trigger.timestamp_seconds + cfg.post_buffer))).2,
    events_in_window := windowOf df trigger.source_video
      (trigger.timestamp_seconds - cfg.pre_buffer)
      (trigger.timestamp_seconds + cfg.post_buffer) }

lemma mkCandidate_eq_some (cfg : CorrelatorConfig) (σ : SetOrder) (df : List Event)
    (trigger : Event)
    (hne : (windowOf df trigger.source_video
      (trigger.timestamp_seconds - cfg.pre_buffer)
      (trigger.timestamp_seconds + cfg.post_buffer)).isEmpty = false) :
    mkCandidate cfg σ df trigger = some (mkCandidateClip cfg σ df trigger) := by
  simp only [mkCandidate, hne, Bool.false_eq_true, if_false]
  rfl

/-- C4: every kill trigger of the sorted event list yields a candidate
clip satisfying the window-collection and scoring contract. -/
theorem window_scoring (cfg : CorrelatorConfig) (σ : SetOrder) (evs : List Event)
    (t : Event) (hσ : ValidSetOrder σ)
    (hpre : 0 ≤ cfg.pre_buffer) (hpost : 0 ≤ cfg.post_buffer)
    (ht : t ∈ List.insertionSort eventLE evs) (hk : t.etype = EType.kill) :
    windowContract cfg σ evs t := by
  have h1 : t.timestamp_seconds - cfg.pre_buffer ≤ t.timestamp_seconds :=
    sub_le_self _ hpre
  have h2 : t.timestamp_seconds ≤ t.timestamp_seconds + cfg.post_buffer :=
    le_add_of_nonneg_right hpost
  have htw : t ∈ windowOf (List.insertionSort eventLE evs) t.source_video
      (t.timestamp_seconds - cfg.pre_buffer) (t.timestamp_seconds + cfg.post_buffer) := by
    refine List.mem_filter.mpr ⟨ht, ?_⟩
    simp [h1, h2]
  have hne : (windowOf (List.insertionSort eventLE evs) t.source_video
      (t.timestamp_seconds - cfg.pre_buffer)
      (t.timestamp_seconds + cfg.post_buffer)).isEmpty = false :=
    List.isEmpty_eq_false_iff_exists_mem.mpr ⟨t, htw⟩
  have hmemσ : ∀ (l : List String) (x : String), (x ∈ σ l ↔ x ∈ l) := by
    intro l x
    rw [(hσ l).mem_iff, List.mem_dedup]
  refine ⟨mkCandidateClip cfg σ (List.insertionSort eventLE evs) t,
    mkCandidate_eq_some cfg σ _ t hne, rfl, rfl, rfl, ?_, ?_, ?_, ?_, ?_, ?_⟩
  · intro e
    show (windowOf (List.insertionSort eventLE evs) t.source_video
      (t.timestamp_seconds - cfg.pre_buffer)
      (t.timestamp_seconds + cfg.post_buffer)).count e = _
    unfold windowOf
    rw [count_filter_eq, (List.perm_insertionSort eventLE evs).count_eq e]
    refine if_congr ?_ rfl rfl
    simp [Bool.and_eq_true, beq_iff_eq, decide_eq_true_eq, and_assoc]
  · show (scoreAndTags cfg.weights _).1 = _
    rw [scoreAndTags_fst]
    simp only [any_filter_iff, isEmpty_filter_iff, mkCandidateClip]
  · show "multi-kill" ∈ σ (scoreAndTags cfg.weights _).2 ↔ _
    rw [hmemσ, scoreAndTags_snd_mem]
    simp +decide [any_filter_iff, isEmpty_filter_iff, mkCandidateClip]
  · show "enemy_rage" ∈ σ (scoreAndTags cfg.weights _).2 ↔ _
    rw [hmemσ, scoreAndTags_snd_mem]
    simp +decide [any_filter_iff, isEmpty_filter_iff, mkCandidateClip]
  · show "team_hype" ∈ σ (scoreAndTags cfg.weights _).2 ↔ _
    rw [hmemσ, scoreAndTags_snd_mem]
    simp +decide [any_filter_iff, isEmpty_filter_iff, mkCandidateClip]
  · show "loud_reaction" ∈ σ (scoreAndTags cfg.weights _).2 ↔ _
    rw [hmemσ, scoreAndTags_snd_mem]
    simp +decide [any_filter_iff, isEmpty_filter_iff, mkCandidateClip]

/-! ### Determinism up to set-iteration order (C9) -/

/-- Equality of clips up to the order of the `tags` list. -/
def ClipSim (a b : Clip) : Prop :=
  a.source_video = b.source_video ∧ a.clip_start = b.clip_start ∧
  a.clip_end = b.clip_end ∧ a.score = b.score ∧
  a.events_in_window = b.events_in_window ∧ List.Perm a.tags b.tags

/-- Similarity of correlator results: same shape, clips pairwise
`ClipSim`. -/
def runSim : Option (List Clip) → Option (List Clip) → Prop
  | none, none => True
  | some l1, some l2 => List.Forall₂ ClipSim l1 l2
  | _, _ => False

lemma mkCandidate_sim (cfg : CorrelatorConfig) (σ1 σ2 : SetOrder)
    (h1 : ValidSetOrder σ1) (h2 : ValidSetOrder σ2) (df : List Event) (t : Event) :
    (mkCandidate cfg σ1 df t = none ∧ mkCandidate cfg σ2 df t = none) ∨
    (∃ c1 c2, mkCandidate cfg σ1 df t = some c1 ∧ mkCandidate cfg σ2 df t = some c2 ∧
      ClipSim c1 c2) := by
  by_cases hem : (windowOf df t.source_video
      (t.timestamp_seconds - cfg.pre_buffer)
      (t.timestamp_seconds + cfg.post_buffer)).isEmpty = true
  · left
    constructor <;> simp only [mkCandidate, hem, if_true]
  · right
    have hem' : (windowOf df t.source_video
        (t.timestamp_seconds - cfg.pre_buffer)
        (t.timestamp_seconds + cfg.post_buffer)).isEmpty = false := by
      revert hem
      cases (windowOf df t.source_video
        (t.timestamp_seconds - cfg.pre_buffer)
        (t.timestamp_seconds + cfg.post_buffer)).isEmpty <;> simp
    refine ⟨_, _, mkCandidate_eq_some cfg σ1 df t hem',
      mkCandidate_eq_some cfg σ2 df t hem', rfl, rfl, rfl, rfl, rfl, ?_⟩
    exact (h1 _).trans (h2 _).symm

lemma filterMap_forall2 (f g : Event → Option Clip)
    (h : ∀ t, (f t = none ∧ g t = none) ∨
      ∃ c1 c2, f t = some c1 ∧ g t = some c2 ∧ ClipSim c1 c2) :
    ∀ l : List Event, List.Forall₂ ClipSim (l.filterMap f) (l.filterMap g) := by
  intro l
  induction l with
  | nil => exact List.Forall₂.nil
  | cons t l ih =>
    rcases h t with ⟨hf, hg⟩ | ⟨c1, c2, hf, hg, hc⟩
    · rw [List.filterMap_cons, List.filterMap_cons, hf, hg]
      exact ih
    · rw [List.filterMap_cons, List.filterMap_cons, hf, hg]
      exact List.Forall₂.cons hc ih

lemma orderedInsert_forall2 (r : Clip → Clip → Prop) [DecidableRel r]
    (hkey : ∀ a b x y, ClipSim a b → ClipSim x y → (r a x ↔ r b y))
    (a b : Clip) (hab : ClipSim a b) :
    ∀ {l1 l2 : List Clip}, List.Forall₂ ClipSim l1 l2 →
      List.Forall₂ ClipSim (l1.orderedInsert r a) (l2.orderedInsert r b) := by
  intro l1 l2 h
  induction h with
  | nil => exact List.Forall₂.cons hab List.Forall₂.nil
  | cons hxy htail ih =>
    rename_i x y l1' l2'
    rw [List.orderedInsert, List.orderedInsert]
    by_cases hr : r a x
    · rw [if_pos hr, if_pos ((hkey a b x y hab hxy).mp hr)]
      exact List.Forall₂.cons hab (List.Forall₂.cons hxy htail)
    · rw [if_neg hr, if_neg (fun hc => hr ((hkey a b x y hab hxy).mpr hc))]
      exact List.Forall₂.cons hxy ih

lemma insertionSort_forall2 (r : Clip → Clip → Prop) [DecidableRel r]
    (hkey : ∀ a b x y, ClipSim a b → ClipSim x y → (r a x ↔ r b y)) :
    ∀ {l1 l2 : List Clip}, List.Forall₂ ClipSim l1 l2 →
      List.Forall₂ ClipSim (List.insertionSort r l1) (List.insertionSort r l2) := by
  intro l1 l2 h
  induction h with
  | nil => exact List.Forall₂.nil
  | cons hxy htail ih =>
    rw [List.insertionSort, List.insertionSort]
    exact orderedInsert_forall2 r hkey _ _ hxy ih

lemma mergeTags_perm (σ1 σ2 : SetOrder) (h1 : ValidSetOrder σ1) (h2 : ValidSetOrder σ2)
    (a1 b1 a2 b2 : List String) (ha : List.Perm a1 a2) (hb : List.Perm b1 b2) :
    List.Perm (mergeTags σ1 a1 b1) (mergeTags σ2 a2 b2) := by
  unfold mergeTags
  refine ((h1 _).trans ?_).trans (h2 _).symm
  rw [List.dedup_idem, List.dedup_idem]
  exact (ha.append hb).dedup

lemma mergeLoop_forall2 (σ1 σ2 : SetOrder) (h1 : ValidSetOrder σ1) (h2 : ValidSetOrder σ2) :
    ∀ {cs1 cs2 : List Clip}, List.Forall₂ ClipSim cs1 cs2 →
      ∀ {r1 r2 : Clip}, ClipSim r1 r2 →
      List.Forall₂ ClipSim (mergeLoop σ1 r1 cs1) (mergeLoop σ2 r2 cs2) := by
  intro cs1 cs2 h
  induction h with
  | nil =>
    intro r1 r2 hr
    exact List.Forall₂.cons hr List.Forall₂.nil
  | cons hxy htail ih =>
    rename_i c1 c2 cs1' cs2'
    intro r1 r2 hr
    obtain ⟨hsv, hst, hen, hsc, hev, htg⟩ := hr
    obtain ⟨csv, cst, cen, csc, cev, ctg⟩ := hxy
    rw [mergeLoop_cons, mergeLoop_cons]
    have hcond : (r1.source_video == c1.source_video &&
        decide (c1.clip_start < r1.clip_end)) =
        (r2.source_video == c2.source_video && decide (c2.clip_start < r2.clip_end)) := by
      rw [hsv, csv, cst, hen]
    by_cases hb : (r1.source_video == c1.source_video &&
        decide (c1.clip_start < r1.clip_end)) = true
    · rw [if_pos hb, if_pos (hcond ▸ hb)]
      refine ih ?_
      exact ⟨hsv, hst, by simp [absorbClip, hen, cen], by simp [absorbClip, hsc, csc],
        by simp [absorbClip, hev],
        by simpa [absorbClip] using mergeTags_perm σ1 σ2 h1 h2 _ _ _ _ htg ctg⟩
    · rw [if_neg hb, if_neg (fun hc => hb (hcond ▸ hc))]
      exact List.Forall₂.cons ⟨hsv, hst, hen, hsc, hev, htg⟩ (ih ⟨csv, cst, cen, csc, cev, ctg⟩)

lemma clipLE_key (a b x y : Clip) (hab : ClipSim a b) (hxy : ClipSim x y) :
    (clipLE a x ↔ clipLE b y) := by
  unfold clipLE
  rw [hab.1, hab.2.1, hxy.1, hxy.2.1]

lemma scoreGE_key (a b x y : Clip) (hab : ClipSim a b) (hxy : ClipSim x y) :
    (scoreGE a x ↔ scoreGE b y) := by
  unfold scoreGE
  rw [hab.2.2.2.1, hxy.2.2.2.1]

lemma mergePass_forall2 (σ1 σ2 : SetOrder) (h1 : ValidSetOrder σ1) (h2 : ValidSetOrder σ2)
    (cs1 cs2 : List Clip) (h : List.Forall₂ ClipSim cs1 cs2) :
    List.Forall₂ ClipSim (mergePass σ1 cs1) (mergePass σ2 cs2) := by
  unfold mergePass
  have hsorted := insertionSort_forall2 clipLE clipLE_key h
  cases hs : List.insertionSort clipLE cs1 with
  | nil =>
    rw [hs] at hsorted
    have h2nil := List.forall₂_nil_left_iff.mp hsorted
    rw [h2nil]
    exact List.Forall₂.nil
  | cons m0 ms =>
    rw [hs] at hsorted
    obtain ⟨b, l', hm, htail, h2eq⟩ := List.forall₂_cons_left_iff.mp hsorted
    rw [h2eq]
    exact mergeLoop_forall2 σ1 σ2 h1 h2 htail hm

/-- C9 (amended): for any two valid set-iteration orders, the
correlator's results on identical inputs agree in shape, and each pair
of corresponding clips is identical in every field except that the
`tags` lists are permutations of one another; with the same
set-iteration order (e.g. within one process) the outputs are equal
outright, and the analyzer's event lists do not depend on any iteration
order at all. -/
theorem determinism_up_to_tag_order (cfg : CorrelatorConfig) (σ1 σ2 : SetOrder)
    (evs : List Event) (h1 : ValidSetOrder σ1) (h2 : ValidSetOrder σ2) :
    runSim (run_correlation cfg σ1 evs) (run_correlation cfg σ2 evs) := by
  unfold run_correlation
  by_cases hemp : evs.isEmpty = true
  · rw [if_pos hemp, if_pos hemp]
    exact True.intro
  · rw [if_neg hemp, if_neg hemp]
    dsimp only
    have hpot := filterMap_forall2 _ _
      (fun t => mkCandidate_sim cfg σ1 σ2 h1 h2 (List.insertionSort eventLE evs) t)
      ((List.insertionSort eventLE evs).filter (fun e => e.etype == EType.kill))
    cases hp1 : (List.filterMap (mkCandidate cfg σ1 (List.insertionSort eventLE evs))
        ((List.insertionSort eventLE evs).filter (fun e => e.etype == EType.kill))) with
    | nil =>
      rw [hp1] at hpot
      have h2nil := List.forall₂_nil_left_iff.mp hpot
      rw [h2nil]
      simp only [List.isEmpty_nil, if_true]
      exact True.intro
    | cons p0 ps =>
      rw [hp1] at hpot
      obtain ⟨q0, qs, hp, htail, h2eq⟩ := List.forall₂_cons_left_iff.mp hpot
      rw [h2eq]
      simp only [List.isEmpty_cons, if_false]
      show List.Forall₂ ClipSim _ _
      exact insertionSort_forall2 scoreGE scoreGE_key
        (mergePass_forall2 σ1 σ2 h1 h2 _ _ (List.Forall₂.cons hp htail))

/-- The dedup-order oracle is a valid set-iteration order. -/
lemma valid_insertionOrder : ValidSetOrder insertionOrder :=
  fun l => List.Perm.refl l.dedup

/-- The reversed-dedup oracle: a second valid set-iteration order, as a
different CPython hash seed can produce. -/
def reverseOrder : SetOrder := fun l => l.dedup.reverse

/-- The reversed-dedup oracle is a valid set-iteration order. -/
lemma valid_reverseOrder : ValidSetOrder reverseOrder :=
  fun l => List.reverse_perm l.dedup

/-- Concrete correlator configuration for the C9 counterexample. -/
def cfgC : CorrelatorConfig :=
  { weights := { kill := 10, multi_kill_bonus := 15, enemy_rage_chat := 25,
                 team_hype_voice := 20, audio_spike := 5 },
    pre_buffer := 0, post_buffer := 0 }

/-- Kill event of the C9 counterexample. -/
def k9 : Event :=
  { source_video := "v", timestamp_seconds := 0, etype := EType.kill,
    details_str := "victim Bob" }

/-- Chat event containing "rage" of the C9 counterexample. -/
def ch9 : Event :=
  { source_video := "v", timestamp_seconds := 0, etype := EType.chat,
    details_str := "text pure rage" }

/-- Audio-spike event of the C9 counterexample. -/
def sp9 : Event :=
  { source_video := "v", timestamp_seconds := 0, etype := EType.audio_spike,
    details_str := "intensity 0.9" }

/-- C9 counterexample: two runs on identical inputs and configuration
that differ only in the (hash-seed dependent) set-iteration order
produce different clip lists: the clips agree except in the order of
their `tags` lists, so the claim's "identical ... including the order
of elements within each clip's tags list" fails. -/
theorem determinism_counterexample :
    ValidSetOrder insertionOrder ∧ ValidSetOrder reverseOrder ∧
    run_correlation cfgC insertionOrder [k9, ch9, sp9] ≠
      run_correlation cfgC reverseOrder [k9, ch9, sp9] := by
  refine ⟨valid_insertionOrder, valid_reverseOrder, ?_⟩
  have hsorted : List.Sorted eventLE [k9, ch9, sp9] := by
    refine List.pairwise_cons.mpr ⟨?_, List.pairwise_cons.mpr ⟨?_, List.pairwise_singleton _ _⟩⟩
    · intro y hy
      simp only [List.mem_cons, List.not_mem_nil, or_false] at hy
      rcases hy with rfl | rfl <;> exact Or.inr ⟨rfl, le_refl _⟩
    · intro y hy
      simp only [List.mem_singleton] at hy
      rcases hy with rfl
      exact Or.inr ⟨rfl, le_refl _⟩
  have hdf : List.insertionSort eventLE [k9, ch9, sp9] = [k9, ch9, sp9] :=
    hsorted.insertionSort_eq
  have hwin : windowOf [k9, ch9, sp9] k9.source_video
      (k9.timestamp_seconds - cfgC.pre_buffer)
      (k9.timestamp_seconds + cfgC.post_buffer) = [k9, ch9, sp9] := by
    unfold windowOf k9 ch9 sp9 cfgC
    norm_num
  have hmk : ∀ σ : SetOrder, mkCandidate cfgC σ [k9, ch9, sp9] k9 =
      some (mkCandidateClip cfgC σ [k9, ch9, sp9] k9) :=
    fun σ => mkCandidate_eq_some _ _ _ _ (by rw [hwin]; rfl)
  have htrig : [k9, ch9, sp9].filter (fun e => e.etype == EType.kill) = [k9] := rfl
  have hrun : ∀ σ : SetOrder, run_correlation cfgC σ [k9, ch9, sp9] =
      some [mkCandidateClip cfgC σ [k9, ch9, sp9] k9] := by
    intro σ
    unfold run_correlation
    rw [if_neg (by simp)]
    dsimp only
    rw [hdf, htrig]
    simp only [List.filterMap_cons, List.filterMap_nil, hmk σ]
    rfl
  rw [hrun insertionOrder, hrun reverseOrder]
  intro heq
  have h' := Option.some.inj heq
  have hclip : mkCandidateClip cfgC insertionOrder [k9, ch9, sp9] k9 =
      mkCandidateClip cfgC reverseOrder [k9, ch9, sp9] k9 := by
    injection h'
  have htageq := congrArg Clip.tags hclip
  simp only [mkCandidateClip, hwin] at htageq
  have htags : (scoreAndTags cfgC.weights [k9, ch9, sp9]).2 =
      ["enemy_rage", "loud_reaction"] := by decide
  rw [htags] at htageq
  exact absurd htageq (by decide)

/-- Witness for C9's amended theorem at the counterexample's input. -/
theorem determinism_up_to_tag_order_witness :
    (ValidSetOrder insertionOrder ∧ ValidSetOrder reverseOrder) ∧
    runSim (run_correlation cfgC insertionOrder [k9, ch9, sp9])
      (run_correlation cfgC reverseOrder [k9, ch9, sp9]) :=
  ⟨⟨valid_insertionOrder, valid_reverseOrder⟩,
    determinism_up_to_tag_order cfgC insertionOrder reverseOrder [k9, ch9, sp9]
      valid_insertionOrder valid_reverseOrder⟩

/-- A concrete kill event for the C4 witness. -/
def kill500 : Event :=
  { source_video := "game.mp4", timestamp_seconds := 500, etype := EType.kill,
    details_str := "victim Bob" }

/-! ### Score monotonicity (C8) -/

/-- Inversion of a successful candidate generation. -/
lemma mkCandidate_some_inv (cfg : CorrelatorConfig) (σ : SetOrder) (df : List Event)
    (trigger : Event) (c : Clip) (h : mkCandidate cfg σ df trigger = some c) :
    (windowOf df trigger.source_video
      (trigger.timestamp_seconds - cfg.pre_buffer)
      (trigger.timestamp_seconds + cfg.post_buffer)).isEmpty = false ∧
    c = mkCandidateClip cfg σ df trigger := by
  by_cases hem : (windowOf df trigger.source_video
      (trigger.timestamp_seconds - cfg.pre_buffer)
      (trigger.timestamp_seconds + cfg.post_buffer)).isEmpty = false
  · refine ⟨hem, ?_⟩
    rw [mkCandidate_eq_some cfg σ df trigger hem] at h
    exact (Option.some.inj h).symm
  · have hem' : (windowOf df trigger.source_video
        (trigger.timestamp_seconds - cfg.pre_buffer)
        (trigger.timestamp_seconds + cfg.post_buffer)).isEmpty = true := by
      revert hem
      cases (windowOf df trigger.source_video
        (trigger.timestamp_seconds - cfg.pre_buffer)
        (trigger.timestamp_seconds + cfg.post_buffer)).isEmpty <;> simp
    simp only [mkCandidate, hem', if_true] at h
    exact Option.noConfusion h

lemma ite_weight_mono (A B : Prop) [Decidable A] [Decidable B] (w : ℚ)
    (hAB : A → B) (hw : 0 ≤ w) :
    (if A then w else 0) ≤ (if B then w else 0) := by
  split_ifs with ha hb
  · exact le_refl w
  · exact absurd (hAB ha) hb
  · exact hw
  · exact le_refl 0

lemma any_filter_mono (ty : EType) (q : Event → Bool) (l l₂ : List Event)
    (h : (l.filter (fun e => e.etype == ty)).any q = true) :
    ((l ++ l₂).filter (fun e => e.etype == ty)).any q = true := by
  rw [List.filter_append, List.any_append, h, Bool.true_or]

lemma isEmpty_filter_mono (ty : EType) (l l₂ : List Event)
    (h : (l.filter (fun e => e.etype == ty)).isEmpty = false) :
    ((l ++ l₂).filter (fun e => e.etype == ty)).isEmpty = false := by
  obtain ⟨x, hx⟩ := List.isEmpty_eq_false_iff_exists_mem.mp h
  refine List.isEmpty_eq_false_iff_exists_mem.mpr ⟨x, ?_⟩
  rw [List.filter_append]
  exact List.mem_append_left _ hx

/-- An event the scoring pass reacts to. -/
def qualifying (e : Event) : Prop :=
  e.etype = EType.kill ∨
  (e.etype = EType.chat ∧ strContainsStr "rage" e.details_str = true) ∨
  (e.etype = EType.voice ∧ strContainsStr "hype" e.details_str = true) ∨
  e.etype = EType.audio_spike

/-- Concrete configuration with a negative kill weight (the spec allows
any numbers as weights). -/
def negW : CorrelatorConfig :=
  { weights := { kill := -1, multi_kill_bonus := 0, enemy_rage_chat := 0,
                 team_hype_voice := 0, audio_spike := 0 },
    pre_buffer := 1, post_buffer := 1 }

/-- Concrete trigger event for the C8 counterexample. -/
def killT : Event :=
  { source_video := "v", timestamp_seconds := 0, etype := EType.kill, details_str := "a" }

/-- Concrete added kill event for the C8 counterexample. -/
def killE : Event :=
  { source_video := "v", timestamp_seconds := 0, etype := EType.kill, details_str := "b" }

/-- C8 counterexample: with a negative `kill` weight (the weight table
is only required to hold numbers), adding a qualifying kill event
inside the trigger's window strictly decreases the window's score, so
the claim fails as stated for arbitrary configurations. -/
theorem score_monotone_counterexample :
    (qualifying killE ∧ killE.source_video = killT.source_video ∧
      killT.timestamp_seconds - negW.pre_buffer ≤ killE.timestamp_seconds ∧
      killE.timestamp_seconds ≤ killT.timestamp_seconds + negW.post_buffer) ∧
    ∃ c c', mkCandidate negW insertionOrder [killT] killT = some c ∧
      mkCandidate negW insertionOrder ([killT] ++ [killE]) killT = some c' ∧
      c'.score < c.score := by
  constructor
  · exact ⟨Or.inl rfl, rfl, by norm_num [killT, killE, negW],
      by norm_num [killT, killE, negW]⟩
  · have hw1 : windowOf [killT] killT.source_video
        (killT.timestamp_seconds - negW.pre_buffer)
        (killT.timestamp_seconds + negW.post_buffer) = [killT] := by
      unfold windowOf killT negW
      norm_num
    have hw2 : windowOf [killT, killE] killT.source_video
        (killT.timestamp_seconds - negW.pre_buffer)
        (killT.timestamp_seconds + negW.post_buffer) = [killT, killE] := by
      unfold windowOf killT killE negW
      norm_num
    refine ⟨_, _, mkCandidate_eq_some negW insertionOrder [killT] killT (by rw [hw1]; rfl),
      mkCandidate_eq_some negW insertionOrder [killT, killE] killT (by rw [hw2]; rfl), ?_⟩
    show (scoreAndTags negW.weights _).1 < (scoreAndTags negW.weights _).1
    rw [hw1, hw2, scoreAndTags_fst, scoreAndTags_fst]
    norm_num [killT, killE, negW, strContainsStr]

/-- C8 (amended): when all scoring weights are nonnegative, adding one
additional qualifying event with the trigger's source video and a
timestamp inside the window's time range never decreases the window's
computed score. -/
theorem score_monotone (cfg : CorrelatorConfig) (σ : SetOrder) (df : List Event)
    (t e : Event) (c : Clip)
    (hwk : 0 ≤ cfg.weights.kill) (hwm : 0 ≤ cfg.weights.multi_kill_bonus)
    (hwr : 0 ≤ cfg.weights.enemy_rage_chat) (hwh : 0 ≤ cfg.weights.team_hype_voice)
    (hws : 0 ≤ cfg.weights.audio_spike)
    (hq : qualifying e) (hsv : e.source_video = t.source_video)
    (h1 : t.timestamp_seconds - cfg.pre_buffer ≤ e.timestamp_seconds)
    (h2 : e.timestamp_seconds ≤ t.timestamp_seconds + cfg.post_buffer)
    (hc : mkCandidate cfg σ df t = some c) :
    ∃ c', mkCandidate cfg σ (df ++ [e]) t = some c' ∧ c.score ≤ c'.score := by
  obtain ⟨hne, hceq⟩ := mkCandidate_some_inv cfg σ df t c hc
  have hwin' : windowOf (df ++ [e]) t.source_video
      (t.timestamp_seconds - cfg.pre_buffer) (t.timestamp_seconds + cfg.post_buffer) =
      windowOf df t.source_video
        (t.timestamp_seconds - cfg.pre_buffer) (t.timestamp_seconds + cfg.post_buffer)
        ++ [e] := by
    unfold windowOf
    rw [List.filter_append]
    congr 1
    have h1' : t.timestamp_seconds ≤ e.timestamp_seconds + cfg.pre_buffer := by linarith
    simp [hsv, h1, h1', h2]
  have hne' : (windowOf (df ++ [e]) t.source_video
      (t.timestamp_seconds - cfg.pre_buffer)
      (t.timestamp_seconds + cfg.post_buffer)).isEmpty = false := by
    obtain ⟨x, hx⟩ := List.isEmpty_eq_false_iff_exists_mem.mp hne
    refine List.isEmpty_eq_false_iff_exists_mem.mpr ⟨x, ?_⟩
    rw [hwin']
    exact List.mem_append_left _ hx
  refine ⟨_, mkCandidate_eq_some cfg σ (df ++ [e]) t hne', ?_⟩
  rw [hceq]
  show (scoreAndTags cfg.weights _).1 ≤ (scoreAndTags cfg.weights _).1
  rw [scoreAndTags_fst, scoreAndTags_fst, hwin']
  have hkle : ((windowOf df t.source_video
      (t.timestamp_seconds - cfg.pre_buffer)
      (t.timestamp_seconds + cfg.post_buffer)).filter
        (fun e => e.etype == EType.kill)).length ≤
      (((windowOf df t.source_video
        (t.timestamp_seconds - cfg.pre_buffer)
        (t.timestamp_seconds + cfg.post_buffer) ++ [e]).filter
          (fun e => e.etype == EType.kill)).length) := by
    rw [List.filter_append, List.length_append]
    exact Nat.le_add_right _ _
  refine add_le_add (add_le_add (add_le_add (add_le_add ?_ ?_) ?_) ?_) ?_
  · exact mul_le_mul_of_nonneg_right (by exact_mod_cast hkle) hwk
  · exact ite_weight_mono _ _ _ (fun h => lt_of_lt_of_le h hkle) hwm
  · exact ite_weight_mono _ _ _ (any_filter_mono _ _ _ _) hwr
  · exact ite_weight_mono _ _ _ (any_filter_mono _ _ _ _) hwh
  · exact ite_weight_mono _ _ _ (isEmpty_filter_mono _ _ _) hws

/-- A concrete audio-spike event inside `kill500`'s window. -/
def spike501 : Event :=
  { source_video := "game.mp4", timestamp_seconds := 501, etype := EType.audio_spike,
    details_str := "intensity 0.9" }

/-- Witness for C8's amended theorem: adding an audio spike inside a
kill's window under the default (nonnegative) weights. -/
theorem score_monotone_witness :
    ((0 ≤ cfg0.weights.kill ∧ 0 ≤ cfg0.weights.multi_kill_bonus ∧
      0 ≤ cfg0.weights.enemy_rage_chat ∧ 0 ≤ cfg0.weights.team_hype_voice ∧
      0 ≤ cfg0.weights.audio_spike) ∧
      qualifying spike501 ∧ spike501.source_video = kill500.source_video ∧
      kill500.timestamp_seconds - cfg0.pre_buffer ≤ spike501.timestamp_seconds ∧
      spike501.timestamp_seconds ≤ kill500.timestamp_seconds + cfg0.post_buffer ∧
      mkCandidate cfg0 insertionOrder [kill500] kill500 =
        some (mkCandidateClip cfg0 insertionOrder [kill500] kill500)) ∧
    ∃ c', mkCandidate cfg0 insertionOrder ([kill500] ++ [spike501]) kill500 = some c' ∧
      (mkCandidateClip cfg0 insertionOrder [kill500] kill500).score ≤ c'.score := by
  have hw1 : windowOf [kill500] kill500.source_video
      (kill500.timestamp_seconds - cfg0.pre_buffer)
      (kill500.timestamp_seconds + cfg0.post_buffer) = [kill500] := by
    unfold windowOf kill500 cfg0
    norm_num
  have hc : mkCandidate cfg0 insertionOrder [kill500] kill500 =
      some (mkCandidateClip cfg0 insertionOrder [kill500] kill500) :=
    mkCandidate_eq_some _ _ _ _ (by rw [hw1]; rfl)
  refine ⟨⟨⟨by norm_num [cfg0], by norm_num [cfg0], by norm_num [cfg0],
      by norm_num [cfg0], by norm_num [cfg0]⟩,
      Or.inr (Or.inr (Or.inr rfl)), rfl,
      by norm_num [kill500, spike501, cfg0], by norm_num [kill500, spike501, cfg0], hc⟩,
    score_monotone cfg0 insertionOrder [kill500] kill500 spike501 _
      (by norm_num [cfg0]) (by norm_num [cfg0]) (by norm_num [cfg0])
      (by norm_num [cfg0]) (by norm_num [cfg0])
      (Or.inr (Or.inr (Or.inr rfl))) rfl
      (by norm_num [kill500, spike501, cfg0]) (by norm_num [kill500, spike501, cfg0]) hc⟩

/-- Witness for C4 on a single concrete kill trigger. -/
theorem window_scoring_witness :
    (ValidSetOrder insertionOrder ∧ 0 ≤ cfg0.pre_buffer ∧ 0 ≤ cfg0.post_buffer ∧
      kill500 ∈ List.insertionSort eventLE [kill500] ∧ kill500.etype = EType.kill) ∧
    windowContract cfg0 insertionOrder [kill500] kill500 :=
  ⟨⟨valid_insertionOrder, by norm_num [cfg0], by norm_num [cfg0],
      (List.mem_insertionSort eventLE).mpr (List.mem_singleton_self _), rfl⟩,
    window_scoring cfg0 insertionOrder [kill500] kill500 valid_insertionOrder
      (by norm_num [cfg0]) (by norm_num [cfg0])
      ((List.mem_insertionSort eventLE).mpr (List.mem_singleton_self _)) rfl⟩
